import Mathlib

/-!
# Verification of the fhirpath-server evaluation pipeline

A shallow embedding, in Lean, of the context-aware evaluation orchestration
and typed response-assembly pipeline of the `atomic-ehr/fhirpath-server`
repository (`src/fhirpath-service.ts`, `src/utils.ts`, `src/trace-collector.ts`,
`src/trace-hook.ts`), together with theorems settling the specification's
claims about it.

Modelling conventions:
* JavaScript runtime values are modelled by the inductive `Value` below: JSON
  data plus the distinguished NaN number.  Finite JS numbers are modelled as
  rationals (every finite IEEE-754 double is a rational); IEEE-754 rounding
  itself is outside the model, and the round-trip theorems that mention
  serialized numbers are stated for whole-number values, where the JS
  decimal rendering is exact.
* JS objects are modelled as insertion-ordered association lists.
* The external `@atomic-ehr/fhirpath` engine (`evaluate`/`analyze`) is an
  external collaborator per the specification; it is modelled as an oracle
  parameter.  Side effects of an evaluation on the process-wide trace
  collector are modelled by the oracle's emission list.
-/

/-- A JavaScript runtime value, restricted to the JSON-representable data the
server's wire format carries, plus the NaN number (`Number.isNaN` is tested by
the encoder).  Finite numbers are rationals; strings are Lean strings; objects
are insertion-ordered association lists. -/
inductive Value where
  | vnull
  | vbool (b : Bool)
  | vnum (q : Rat)
  | vnan
  | vstr (s : String)
  | varr (elems : List Value)
  | vobj (fields : List (String × Value))
deriving Repr

/-- JS truthiness of a value (`false`, `0`, `NaN`, `""`, `null` are falsy;
arrays and objects are always truthy). -/
def truthy : Value → Bool
  | .vnull => false
  | .vbool b => b
  | .vnum q => !(q == 0)
  | .vnan => false
  | .vstr s => !(s == "")
  | .varr _ => true
  | .vobj _ => true

/-- JS truthiness of a possibly-absent value (`undefined` is falsy). -/
def truthyOpt : Option Value → Bool
  | none => false
  | some v => truthy v

/-- JS truthiness of a possibly-absent string (`undefined` and `""` falsy). -/
def truthyStr : Option String → Bool
  | none => false
  | some s => !(s == "")

/-- First-match lookup in an association list (JS object property read; the
lists are built without duplicate keys). -/
def alookup (fs : List (String × Value)) (k : String) : Option Value :=
  (fs.find? (fun kv => kv.1 == k)).map (fun kv => kv.2)

/-- JS object property write: replace the key's entry in place if present,
otherwise append it (insertion order). -/
def aset (fs : List (String × Value)) (k : String) (v : Value) : List (String × Value) :=
  if fs.any (fun kv => kv.1 == k) then
    fs.map (fun kv => if kv.1 == k then (kv.1, v) else kv)
  else fs ++ [(k, v)]

/-- ASCII lowercasing of one character (the `toLowerCase` of the ASCII type
and parameter names this code compares). -/
def charLower (c : Char) : Char :=
  if 'A' <= c && c <= 'Z' then Char.ofNat (c.toNat + 32) else c

/-- ASCII `toLowerCase`. -/
def strLower (s : String) : String := String.mk (s.toList.map charLower)

/-! ## JSON text: the model of `JSON.stringify` / `JSON.parse`

The encoder's lossless fallback stores `JSON.stringify(value, null, 2)` in an
annotation; the claims about it require that parsing that string back yields a
deep-equal value.  We therefore model both directions over `Value` and prove
the round trip (for values whose numbers are whole, where JS decimal printing
is exact). -/

/-- JSON/JS whitespace accepted between tokens. -/
def isJWs (c : Char) : Bool := c == ' ' || c == '\n' || c == '\t' || c == '\r'

/-- Decimal digit test. -/
def isDig (c : Char) : Bool := '0' ≤ c && c ≤ '9'

/-- Drop leading whitespace. -/
def skipWs : List Char → List Char
  | [] => []
  | c :: cs => if isJWs c then skipWs cs else c :: cs

/-- Split off the maximal leading run of decimal digits. -/
def grabDigits : List Char → List Char × List Char
  | [] => ([], [])
  | c :: cs =>
    if isDig c then
      let p := grabDigits cs
      (c :: p.1, p.2)
    else ([], c :: cs)

/-- Numeric value of a digit run (most significant first). -/
def digitsVal (ds : List Char) : Nat :=
  ds.foldl (fun a c => a * 10 + (c.toNat - 48)) 0

/-- Value of one hexadecimal digit character, if it is one. -/
def hexDigitVal (c : Char) : Option Nat :=
  if '0' ≤ c && c ≤ '9' then some (c.toNat - 48)
  else if 'a' ≤ c && c ≤ 'f' then some (c.toNat - 97 + 10)
  else if 'A' ≤ c && c ≤ 'F' then some (c.toNat - 65 + 10)
  else none

/-- Value of four hexadecimal digit characters. -/
def hexQuad (a b c d : Char) : Option Nat := do
  let x ← hexDigitVal a
  let y ← hexDigitVal b
  let z ← hexDigitVal c
  let w ← hexDigitVal d
  return ((x * 16 + y) * 16 + z) * 16 + w

/-- JSON two-character escapes (the inverse of the escaper below; `\/` is
accepted on input though never produced). -/
def unescChar : Char → Option Char
  | '"' => some '"'
  | '\\' => some '\\'
  | '/' => some '/'
  | 'b' => some (Char.ofNat 8)
  | 'f' => some (Char.ofNat 12)
  | 'n' => some '\n'
  | 'r' => some '\r'
  | 't' => some '\t'
  | _ => none

/-- Body of a JSON string after the opening quote: accumulate characters until
the closing quote, decoding escapes. -/
def strBody (acc : List Char) : List Char → Option (String × List Char)
  | [] => none
  | c :: rest =>
    if c = '"' then some (String.mk acc.reverse, rest)
    else if c = '\\' then
      match rest with
      | 'u' :: h1 :: h2 :: h3 :: h4 :: r2 =>
        match hexQuad h1 h2 h3 h4 with
        | some n => strBody (Char.ofNat n :: acc) r2
        | none => none
      | e :: r2 =>
        match unescChar e with
        | some ch => strBody (ch :: acc) r2
        | none => none
      | [] => none
    else strBody (c :: acc) rest

/-- A JSON number: optional minus sign, integer digits, optional fraction.
(The printer below never emits an exponent for the values the verified
fragment covers, so exponents are not modelled.) -/
def scanNum (cs : List Char) : Option (Rat × List Char) :=
  let sgn : Bool × List Char :=
    if cs.head? = some '-' then (true, cs.tail) else (false, cs)
  let ip := grabDigits sgn.2
  if ip.1.isEmpty then none
  else
    let fp : List Char × List Char :=
      if ip.2.head? = some '.' then grabDigits ip.2.tail else ([], ip.2)
    let mag : Rat := (digitsVal ip.1 : Rat) + (digitsVal fp.1 : Rat) / ((10 : Rat) ^ fp.1.length)
    some (if sgn.1 then -mag else mag, fp.2)

/-- Match an expected literal suffix (used for `null` / `true` / `false`),
returning the remainder when it is present. -/
def expectRun : List Char → List Char → Option (List Char)
  | [], r => some r
  | p :: ps, c :: r => if c = p then expectRun ps r else none
  | _ :: _, [] => none

mutual
/-- Fuel-indexed JSON value reader over characters; returns the value and the
unconsumed remainder. -/
def parseJVal : Nat → List Char → Option (Value × List Char)
  | 0, _ => none
  | fuel + 1, cs =>
    match skipWs cs with
    | [] => none
    | c :: r =>
      if c = 'n' then
        match expectRun ['u', 'l', 'l'] r with
        | some r1 => some (.vnull, r1)
        | none => none
      else if c = 't' then
        match expectRun ['r', 'u', 'e'] r with
        | some r1 => some (.vbool true, r1)
        | none => none
      else if c = 'f' then
        match expectRun ['a', 'l', 's', 'e'] r with
        | some r1 => some (.vbool false, r1)
        | none => none
      else if c = '"' then
        match strBody [] r with
        | some (s, r1) => some (.vstr s, r1)
        | none => none
      else if c = '[' then
        match skipWs r with
        | [] => none
        | c1 :: r1 =>
          if c1 = ']' then some (.varr [], r1)
          else
            match parseJElems fuel (c1 :: r1) with
            | some (es, r2) => some (.varr es, r2)
            | none => none
      else if c = '\x7b' then
        match skipWs r with
        | [] => none
        | c1 :: r1 =>
          if c1 = '\x7d' then some (.vobj [], r1)
          else
            match parseJMembers fuel (c1 :: r1) with
            | some (ms, r2) => some (.vobj ms, r2)
            | none => none
      else if c == '-' || isDig c then
        match scanNum (c :: r) with
        | some (q, r1) => some (.vnum q, r1)
        | none => none
      else none

/-- One or more comma-separated array elements followed by `]`. -/
def parseJElems : Nat → List Char → Option (List Value × List Char)
  | 0, _ => none
  | fuel + 1, cs =>
    match parseJVal fuel cs with
    | none => none
    | some (v, r) =>
      match skipWs r with
      | [] => none
      | c :: r1 =>
        if c = ',' then
          match parseJElems fuel r1 with
          | some (vs, r2) => some (v :: vs, r2)
          | none => none
        else if c = ']' then some ([v], r1)
        else none

/-- One or more comma-separated object members followed by the closing brace. -/
def parseJMembers : Nat → List Char → Option (List (String × Value) × List Char)
  | 0, _ => none
  | fuel + 1, cs =>
    match skipWs cs with
    | [] => none
    | c :: r =>
      if c = '"' then
        match strBody [] r with
        | none => none
        | some (k, r1) =>
          match skipWs r1 with
          | [] => none
          | c1 :: r2 =>
            if c1 = ':' then
              match parseJVal fuel r2 with
              | none => none
              | some (v, r3) =>
                match skipWs r3 with
                | [] => none
                | c2 :: r4 =>
                  if c2 = ',' then
                    match parseJMembers fuel r4 with
                    | some (ms, r5) => some ((k, v) :: ms, r5)
                    | none => none
                  else if c2 = '\x7d' then some ([(k, v)], r4)
                  else none
            else none
      else none
end

/-! ### Rendering (the model of `JSON.stringify`) -/

/-- The digit character of `n % 10`. -/
def digCh (n : Nat) : Char := Char.ofNat (48 + n % 10)

/-- Decimal digits of a natural number, most significant first, in front of
`acc`. -/
def natChars : Nat → List Char → List Char
  | n, acc =>
    if n < 10 then digCh n :: acc
    else natChars (n / 10) (digCh n :: acc)
termination_by n _ => n
decreasing_by rename_i h; exact Nat.div_lt_self (by omega) (by omega)

/-- Characters of an integer: optional sign, then decimal digits. -/
def intChars (i : Int) : List Char :=
  (if i < 0 then ['-'] else []) ++ natChars i.natAbs []

/-- One hexadecimal digit character (lowercase), as `JSON.stringify` uses in
`\u00xx` escapes. -/
def hexCh (n : Nat) : Char :=
  if n < 10 then Char.ofNat (48 + n) else Char.ofNat (97 + (n - 10))

/-- One character of string content, escaped exactly as `JSON.stringify`
escapes it: quote and backslash, the named control escapes, `\u00xx` for the
remaining control characters, everything else verbatim. -/
def escC (c : Char) : List Char :=
  if c = '"' then ['\\', '"']
  else if c = '\\' then ['\\', '\\']
  else if c = '\x08' then ['\\', 'b']
  else if c = '\x0c' then ['\\', 'f']
  else if c = '\n' then ['\\', 'n']
  else if c = '\r' then ['\\', 'r']
  else if c = '\t' then ['\\', 't']
  else if c.toNat < 32 then
    ['\\', 'u', hexCh (c.toNat / 4096 % 16), hexCh (c.toNat / 256 % 16),
      hexCh (c.toNat / 16 % 16), hexCh (c.toNat % 16)]
  else [c]

/-- A string rendered as a quoted, escaped JSON string literal. -/
def strChars (s : String) : List Char :=
  '"' :: (s.toList.flatMap escC ++ ['"'])

/-- Decimal expansion of the fractional part of a non-negative rational,
digit by digit, bounded by fuel.  JS prints every finite double with a finite
decimal expansion; the fuel generalizes that to the rational model.  Only
non-whole numbers reach this function, and the verified round-trip fragment
excludes them. -/
def fracChars : Nat → Rat → List Char
  | 0, _ => []
  | fuel + 1, r =>
    let r10 := r * 10
    let d : Int := r10.floor
    if r10 - (d : Rat) == 0 then [digCh d.toNat]
    else digCh d.toNat :: fracChars fuel (r10 - (d : Rat))

/-- Characters of a JSON number: whole values print as integers (exactly as JS
prints whole doubles in the non-exponent range); other values print with a
fractional part. -/
def numChars (q : Rat) : List Char :=
  if q.den = 1 then intChars q.num
  else
    (if q < 0 then ['-'] else []) ++
      natChars (q.floor.natAbs + (if q < 0 ∧ q.floor < q then 1 else 0)) [] ++
      '.' :: fracChars 64 (|q| - (|q|).floor)

/-- The indentation `JSON.stringify(v, null, 2)` puts at nesting depth `d`. -/
def ind2 (d : Nat) : List Char := List.replicate (2 * d) ' '

mutual
/-- Render a value at nesting depth `d` exactly as `JSON.stringify(v, null, 2)`
lays it out (`NaN` stringifies as `null`). -/
def renderP : Nat → Value → List Char
  | _, .vnull => ['n', 'u', 'l', 'l']
  | _, .vnan => ['n', 'u', 'l', 'l']
  | _, .vbool true => ['t', 'r', 'u', 'e']
  | _, .vbool false => ['f', 'a', 'l', 's', 'e']
  | _, .vnum q => numChars q
  | _, .vstr s => strChars s
  | _, .varr [] => ['[', ']']
  | d, .varr (x :: xs) =>
    '[' :: '\n' :: (renderItems d (x :: xs) ++ '\n' :: (ind2 d ++ [']']))
  | _, .vobj [] => ['\x7b', '\x7d']
  | d, .vobj (m :: ms) =>
    '\x7b' :: '\n' :: (renderMembers d (m :: ms) ++ '\n' :: (ind2 d ++ ['\x7d']))

/-- The lines for a nonempty list of array elements at depth `d`. -/
def renderItems : Nat → List Value → List Char
  | _, [] => []
  | d, x :: xs => ind2 (d + 1) ++ renderP (d + 1) x ++ renderItemsSep d xs

/-- Separator-then-items continuation for the remaining array elements. -/
def renderItemsSep : Nat → List Value → List Char
  | _, [] => []
  | d, x :: xs => ',' :: '\n' :: renderItems d (x :: xs)

/-- The lines for a nonempty list of object members at depth `d`. -/
def renderMembers : Nat → List (String × Value) → List Char
  | _, [] => []
  | d, (k, v) :: ms =>
    ind2 (d + 1) ++ strChars k ++ ':' :: ' ' :: renderP (d + 1) v ++ renderMembersSep d ms

/-- Separator-then-members continuation for the remaining object members. -/
def renderMembersSep : Nat → List (String × Value) → List Char
  | _, [] => []
  | d, m :: ms => ',' :: '\n' :: renderMembers d (m :: ms)
end

mutual
/-- Compact rendering, as `JSON.stringify(v)` with no gap produces. -/
def renderC : Value → List Char
  | .vnull => ['n', 'u', 'l', 'l']
  | .vnan => ['n', 'u', 'l', 'l']
  | .vbool true => ['t', 'r', 'u', 'e']
  | .vbool false => ['f', 'a', 'l', 's', 'e']
  | .vnum q => numChars q
  | .vstr s => strChars s
  | .varr es => '[' :: (renderCItems es ++ [']'])
  | .vobj ms => '\x7b' :: (renderCMembers ms ++ ['\x7d'])

/-- Compact comma-separated array elements. -/
def renderCItems : List Value → List Char
  | [] => []
  | [x] => renderC x
  | x :: y :: xs => renderC x ++ ',' :: renderCItems (y :: xs)

/-- Compact comma-separated object members. -/
def renderCMembers : List (String × Value) → List Char
  | [] => []
  | [(k, v)] => strChars k ++ ':' :: renderC v
  | (k, v) :: m :: ms => strChars k ++ ':' :: renderC v ++ ',' :: renderCMembers (m :: ms)
end

/-- `JSON.stringify(v, null, 2)` as a string. -/
def stringifyPretty (v : Value) : String := String.mk (renderP 0 v)

/-- `JSON.stringify(v)` as a string (used where the source passes indent 0). -/
def stringifyCompact (v : Value) : String := String.mk (renderC v)

/-- `stringifySafe` from `utils.ts`: `JSON.stringify(obj, null, indent)`.  Our
values are always serializable, so the catch branch is unreachable in the
model. -/
def stringifySafe (v : Value) (indent : Nat) : String :=
  if indent = 0 then stringifyCompact v else stringifyPretty v

/-- A complete JSON document: one value, possibly surrounded by whitespace
(the model of `JSON.parse`). -/
def jsonParse (s : String) : Option Value :=
  match parseJVal (s.toList.length + 1) s.toList with
  | some (v, r) => if (skipWs r).isEmpty then some v else none
  | none => none

/-- The fragment of values on which the decimal rendering of numbers is exact
in the model: every number reachable in the value is a whole number (and not
NaN). -/
def intsOnly : Value → Bool
  | .vnull => true
  | .vbool _ => true
  | .vnum q => q.den == 1
  | .vnan => false
  | .vstr _ => true
  | .varr es => es.attach.all (fun x => intsOnly x.1)
  | .vobj ms => ms.attach.all (fun m => intsOnly m.1.2)
decreasing_by
  · rename_i es
    have h1 := List.sizeOf_lt_of_mem x.2
    have h2 : sizeOf (Value.varr es) = 1 + sizeOf es := by simp
    omega
  · rename_i ms
    obtain ⟨⟨k, v⟩, hm⟩ := m
    have h1 := List.sizeOf_lt_of_mem hm
    have h2 : sizeOf (k, v) = 1 + sizeOf k + sizeOf v := by simp
    have h3 : sizeOf (Value.vobj ms) = 1 + sizeOf ms := by simp
    simp only []
    omega


/-! ### Round trip of the rendered JSON: digit and number lemmas -/

theorem digCh_toNat (n : Nat) : (digCh n).toNat = 48 + n % 10 := by
  have h : n % 10 < 10 := Nat.mod_lt _ (by omega)
  unfold digCh
  set k := n % 10 with hk
  interval_cases k <;> decide

theorem digCh_isDig (n : Nat) : isDig (digCh n) = true := by
  have h : n % 10 < 10 := Nat.mod_lt _ (by omega)
  unfold digCh
  set k := n % 10 with hk
  interval_cases k <;> decide

theorem natChars_eq (n : Nat) (acc : List Char) :
    natChars n acc = if n < 10 then digCh n :: acc else natChars (n / 10) (digCh n :: acc) := by
  rw [natChars]

theorem natChars_acc (n : Nat) : ∀ acc, natChars n acc = natChars n [] ++ acc := by
  induction n using Nat.strongRecOn with
  | _ n ih =>
    intro acc
    by_cases h : n < 10
    · rw [natChars_eq n acc, natChars_eq n [], if_pos h, if_pos h]
      simp
    · rw [natChars_eq n acc, natChars_eq n [], if_neg h, if_neg h,
        ih (n / 10) (Nat.div_lt_self (by omega) (by omega)) (digCh n :: acc),
        ih (n / 10) (Nat.div_lt_self (by omega) (by omega)) [digCh n]]
      simp

theorem natChars_step (n : Nat) :
    natChars n [] = (if n < 10 then [] else natChars (n / 10) []) ++ [digCh n] := by
  by_cases h : n < 10
  · rw [natChars_eq n [], if_pos h, if_pos h]
    simp
  · rw [natChars_eq n [], if_neg h, if_neg h, natChars_acc (n / 10) [digCh n]]

theorem natChars_ne_nil (n : Nat) : natChars n [] ≠ [] := by
  rw [natChars_step]; simp

theorem natChars_all_dig (n : Nat) : ∀ c ∈ natChars n [], isDig c = true := by
  induction n using Nat.strongRecOn with
  | _ n ih =>
    intro c hc
    rw [natChars_step] at hc
    rcases List.mem_append.mp hc with h | h
    · by_cases h10 : n < 10
      · simp [h10] at h
      · exact ih (n / 10) (Nat.div_lt_self (by omega) (by omega)) c (by simpa [h10] using h)
    · rw [List.mem_singleton] at h
      subst h
      exact digCh_isDig n

theorem natChars_foldl (n : Nat) :
    (natChars n []).foldl (fun a c => a * 10 + (c.toNat - 48)) 0 = n := by
  induction n using Nat.strongRecOn with
  | _ n ih =>
    rw [natChars_step, List.foldl_append]
    by_cases h : n < 10
    · simp only [if_pos h, List.foldl_nil, List.foldl_cons]
      rw [digCh_toNat n]
      omega
    · simp only [if_neg h, List.foldl_cons, List.foldl_nil]
      rw [ih (n / 10) (Nat.div_lt_self (by omega) (by omega)), digCh_toNat n]
      omega

theorem digitsVal_natChars (n : Nat) : digitsVal (natChars n []) = n := natChars_foldl n

theorem natChars_head (n : Nat) :
    ∃ c t, natChars n [] = c :: t ∧ isDig c = true := by
  match h : natChars n [] with
  | [] => exact absurd h (natChars_ne_nil n)
  | c :: t => exact ⟨c, t, rfl, natChars_all_dig n c (h ▸ List.mem_cons_self ..)⟩

/-- A digit character is none of the reader's structural characters. -/
theorem isDig_excl {c : Char} (h : isDig c = true) :
    isJWs c = false ∧ c ≠ '-' ∧ c ≠ '.' ∧ c ≠ ',' ∧ c ≠ ']' ∧ c ≠ '\x7d' ∧
      c ≠ 'n' ∧ c ≠ 't' ∧ c ≠ 'f' ∧ c ≠ '"' ∧ c ≠ '[' ∧ c ≠ '\x7b' ∧ c ≠ ':' := by
  refine ⟨?_, ?_, ?_, ?_, ?_, ?_, ?_, ?_, ?_, ?_, ?_, ?_, ?_⟩
  · by_cases hw : isJWs c = true
    · simp only [isJWs, Bool.or_eq_true, beq_iff_eq] at hw
      rcases hw with ((rfl | rfl) | rfl) | rfl <;> exact absurd h (by decide)
    · simpa using hw
  all_goals exact fun hc => absurd (hc ▸ h) (by decide)

/-- A remainder that cannot extend a serialized number: empty, or starting with
a character that is neither a digit nor a decimal point. -/
def numStop : List Char → Bool
  | [] => true
  | c :: _ => !(isDig c || c == '.')

theorem numStop_head {c : Char} {t : List Char} (h : numStop (c :: t) = true) :
    isDig c = false ∧ c ≠ '.' := by
  simp only [numStop, Bool.not_eq_eq_eq_not, Bool.not_true, Bool.or_eq_false_iff,
    beq_eq_false_iff_ne] at h
  exact h

theorem grabDigits_stop {cs : List Char} (h : numStop cs = true) :
    grabDigits cs = ([], cs) := by
  match cs with
  | [] => rfl
  | c :: t => simp [grabDigits, (numStop_head h).1]

theorem grabDigits_run (ds : List Char) (hds : ∀ c ∈ ds, isDig c = true)
    (rest : List Char) (hrest : grabDigits rest = ([], rest)) :
    grabDigits (ds ++ rest) = (ds, rest) := by
  induction ds with
  | nil => simpa using hrest
  | cons c t ih =>
    have hc : isDig c = true := hds c (by simp)
    have ht := ih (fun x hx => hds x (by simp [hx]))
    simp [grabDigits, hc, ht]

/-- `scanNum` inverts the integer rendering whenever the remainder cannot
extend the number. -/
theorem scanNum_intChars (i : Int) (rest : List Char) (hr : numStop rest = true) :
    scanNum (intChars i ++ rest) = some ((i : Rat), rest) := by
  have hgrab : grabDigits (natChars i.natAbs [] ++ rest) = (natChars i.natAbs [], rest) :=
    grabDigits_run _ (natChars_all_dig _) _ (grabDigits_stop hr)
  have hne : (natChars i.natAbs []).isEmpty = false := by
    cases h : natChars i.natAbs [] with
    | nil => exact absurd h (natChars_ne_nil _)
    | cons a b => rfl
  have hfp : (rest.head? = some '.') = False := by
    simp only [eq_iff_iff, iff_false]
    intro hcon
    cases rest with
    | nil => simp at hcon
    | cons c t =>
      simp only [List.head?_cons, Option.some.injEq] at hcon
      exact (numStop_head hr).2 hcon
  have hval : digitsVal (natChars i.natAbs []) = i.natAbs := digitsVal_natChars _
  by_cases hi : i < 0
  · have harg : intChars i ++ rest = '-' :: (natChars i.natAbs [] ++ rest) := by
      simp [intChars, hi]
    have hcast : ((i.natAbs : Rat)) = -(i : Rat) := by
      rw [Int.cast_natAbs]
      exact_mod_cast abs_of_neg hi
    rw [harg]
    simp only [scanNum, List.head?_cons, Option.some.injEq, List.tail_cons, if_true,
      hgrab, hne, Bool.false_eq_true, if_false, hfp, hval, hcast]
    simp [digitsVal]
  · obtain ⟨c0, t0, h0, hc0⟩ := natChars_head i.natAbs
    have harg : intChars i ++ rest = natChars i.natAbs [] ++ rest := by
      simp [intChars, hi]
    have hsgn : ((natChars i.natAbs [] ++ rest).head? = some '-') = False := by
      simp only [eq_iff_iff, iff_false, h0, List.cons_append, List.head?_cons,
        Option.some.injEq]
      intro hcon
      exact (isDig_excl hc0).2.1 hcon
    have hcast : ((i.natAbs : Rat)) = (i : Rat) := by
      rw [Int.cast_natAbs]
      exact_mod_cast abs_of_nonneg (not_lt.mp hi)
    rw [harg]
    simp only [scanNum, hsgn, if_false, hgrab, hne, Bool.false_eq_true, hfp, hval, hcast]
    simp [digitsVal]

/-! ### String, whitespace and dispatch lemmas -/

theorem hexCh_val (k : Nat) (h : k < 16) : hexDigitVal (hexCh k) = some k := by
  interval_cases k <;> decide

/-- One-step equation for `strBody` on a cons cell. -/
theorem strBody_cons (c : Char) (acc rest : List Char) :
    strBody acc (c :: rest) =
      (if c = '"' then some (String.mk acc.reverse, rest)
       else if c = '\\' then
         (match rest with
          | 'u' :: h1 :: h2 :: h3 :: h4 :: r2 =>
            match hexQuad h1 h2 h3 h4 with
            | some n => strBody (Char.ofNat n :: acc) r2
            | none => none
          | e :: r2 =>
            match unescChar e with
            | some ch => strBody (ch :: acc) r2
            | none => none
          | [] => none)
       else strBody (c :: acc) rest) := by
  rw [strBody.eq_def]

theorem strBody_esc (c : Char) (acc rest : List Char) :
    strBody acc (escC c ++ rest) = strBody (c :: acc) rest := by
  unfold escC
  split_ifs with h1 h2 h3 h4 h5 h6 h7 hlt
  · subst h1; rfl
  · subst h2; rfl
  · subst h3; rfl
  · subst h4; rfl
  · subst h5; rfl
  · subst h6; rfl
  · subst h7; rfl
  · have hvhex : ((c.toNat / 4096 % 16 * 16 + c.toNat / 256 % 16) * 16 + c.toNat / 16 % 16)
        * 16 + c.toNat % 16 = c.toNat := by
      omega
    simp only [List.cons_append, List.nil_append]
    rw [show strBody acc ('\\' :: 'u' :: hexCh (c.toNat / 4096 % 16) ::
          hexCh (c.toNat / 256 % 16) :: hexCh (c.toNat / 16 % 16) :: hexCh (c.toNat % 16) :: rest)
          = (match hexQuad (hexCh (c.toNat / 4096 % 16)) (hexCh (c.toNat / 256 % 16))
              (hexCh (c.toNat / 16 % 16)) (hexCh (c.toNat % 16)) with
             | some n => strBody (Char.ofNat n :: acc) rest
             | none => none) from rfl]
    simp only [hexQuad, hexCh_val _ (Nat.mod_lt _ (by omega)), Option.bind_eq_bind,
      Option.some_bind, hvhex, Char.ofNat_toNat]
  · simp only [List.cons_append, List.nil_append]
    rw [strBody_cons, if_neg h1, if_neg h2]

theorem strBody_flat (cs : List Char) : ∀ acc rest,
    strBody acc (cs.flatMap escC ++ '"' :: rest)
      = some (String.mk (acc.reverse ++ cs), rest) := by
  induction cs with
  | nil =>
    intro acc rest
    rw [List.flatMap_nil, List.nil_append, strBody_cons, if_pos rfl]
    simp
  | cons c t ih =>
    intro acc rest
    rw [List.flatMap_cons, List.append_assoc, strBody_esc, ih]
    simp

theorem strBody_render (s : String) (rest : List Char) :
    strBody [] (s.toList.flatMap escC ++ '"' :: rest) = some (s, rest) := by
  rw [strBody_flat]
  rfl

/-- Whole-list whitespace test. -/
def allWs (cs : List Char) : Bool := cs.all isJWs

theorem skipWs_append {ws : List Char} (h : allWs ws = true) (cs : List Char) :
    skipWs (ws ++ cs) = skipWs cs := by
  induction ws with
  | nil => rfl
  | cons c t ih =>
    simp only [allWs, List.all_cons, Bool.and_eq_true] at h
    simpa [skipWs, h.1] using ih (by simpa [allWs] using h.2)

theorem skipWs_nws {c : Char} (h : isJWs c = false) (cs : List Char) :
    skipWs (c :: cs) = c :: cs := by
  simp [skipWs, h]

theorem allWs_ind2 (d : Nat) : allWs (ind2 d) = true := by
  simp only [allWs, ind2, List.all_eq_true]
  intro c hc
  rw [List.eq_of_mem_replicate hc]
  decide

theorem allWs_nl_ind2 (d : Nat) : allWs ('\n' :: ind2 d) = true := by
  have h := allWs_ind2 d
  simp only [allWs, List.all_cons, Bool.and_eq_true]
  exact ⟨by decide, by simpa [allWs] using h⟩

/-- One-step equation for the value reader at successor fuel. -/
theorem parseJVal_succ (f : Nat) (cs : List Char) :
    parseJVal (f + 1) cs =
      (match skipWs cs with
       | [] => none
       | c :: r =>
         if c = 'n' then
           match expectRun ['u', 'l', 'l'] r with
           | some r1 => some (.vnull, r1)
           | none => none
         else if c = 't' then
           match expectRun ['r', 'u', 'e'] r with
           | some r1 => some (.vbool true, r1)
           | none => none
         else if c = 'f' then
           match expectRun ['a', 'l', 's', 'e'] r with
           | some r1 => some (.vbool false, r1)
           | none => none
         else if c = '"' then
           match strBody [] r with
           | some (s, r1) => some (.vstr s, r1)
           | none => none
         else if c = '[' then
           match skipWs r with
           | [] => none
           | c1 :: r1 =>
             if c1 = ']' then some (.varr [], r1)
             else
               match parseJElems f (c1 :: r1) with
               | some (es, r2) => some (.varr es, r2)
               | none => none
         else if c = '\x7b' then
           match skipWs r with
           | [] => none
           | c1 :: r1 =>
             if c1 = '\x7d' then some (.vobj [], r1)
             else
               match parseJMembers f (c1 :: r1) with
               | some (ms, r2) => some (.vobj ms, r2)
               | none => none
         else if c == '-' || isDig c then
           match scanNum (c :: r) with
           | some (q, r1) => some (.vnum q, r1)
           | none => none
         else none) := by
  rw [parseJVal.eq_def]

/-- One-step equation for the element reader at successor fuel. -/
theorem parseJElems_succ (f : Nat) (cs : List Char) :
    parseJElems (f + 1) cs =
      (match parseJVal f cs with
       | none => none
       | some (v, r) =>
         match skipWs r with
         | [] => none
         | c :: r1 =>
           if c = ',' then
             match parseJElems f r1 with
             | some (vs, r2) => some (v :: vs, r2)
             | none => none
           else if c = ']' then some ([v], r1)
           else none) := by
  rw [parseJElems.eq_def]

/-- One-step equation for the member reader at successor fuel. -/
theorem parseJMembers_succ (f : Nat) (cs : List Char) :
    parseJMembers (f + 1) cs =
      (match skipWs cs with
       | [] => none
       | c :: r =>
         if c = '"' then
           match strBody [] r with
           | none => none
           | some (k, r1) =>
             match skipWs r1 with
             | [] => none
             | c1 :: r2 =>
               if c1 = ':' then
                 match parseJVal f r2 with
                 | none => none
                 | some (v, r3) =>
                   match skipWs r3 with
                   | [] => none
                   | c2 :: r4 =>
                     if c2 = ',' then
                       match parseJMembers f r4 with
                       | some (ms, r5) => some ((k, v) :: ms, r5)
                       | none => none
                     else if c2 = '\x7d' then some ([(k, v)], r4)
                     else none
             else none
         else none) := by
  rw [parseJMembers.eq_def]

/-- The JSON reader ignores leading whitespace. -/
theorem parseJVal_ws (fuel : Nat) {ws : List Char} (h : allWs ws = true) (cs : List Char) :
    parseJVal fuel (ws ++ cs) = parseJVal fuel cs := by
  cases fuel with
  | zero => rfl
  | succ f => rw [parseJVal_succ, parseJVal_succ, skipWs_append h]

theorem parseJElems_ws (fuel : Nat) {ws : List Char} (h : allWs ws = true) (cs : List Char) :
    parseJElems fuel (ws ++ cs) = parseJElems fuel cs := by
  cases fuel with
  | zero => rfl
  | succ f => rw [parseJElems_succ, parseJElems_succ, parseJVal_ws f h]

theorem parseJMembers_ws (fuel : Nat) {ws : List Char} (h : allWs ws = true) (cs : List Char) :
    parseJMembers fuel (ws ++ cs) = parseJMembers fuel cs := by
  cases fuel with
  | zero => rfl
  | succ f => rw [parseJMembers_succ, parseJMembers_succ, skipWs_append h]

/-- First character of a rendered value: never whitespace and never a closing
delimiter or separator. -/
theorem renderP_head (d : Nat) (v : Value) :
    ∃ c t, renderP d v = c :: t ∧ isJWs c = false ∧ c ≠ ']' ∧ c ≠ '\x7d' ∧ c ≠ ',' ∧ c ≠ ':' := by
  cases v with
  | vnull => exact ⟨'n', _, by rw [renderP], by decide, by decide, by decide, by decide, by decide⟩
  | vnan => exact ⟨'n', _, by rw [renderP], by decide, by decide, by decide, by decide, by decide⟩
  | vbool b =>
    cases b with
    | true => exact ⟨'t', _, by rw [renderP], by decide, by decide, by decide, by decide, by decide⟩
    | false => exact ⟨'f', _, by rw [renderP], by decide, by decide, by decide, by decide, by decide⟩
  | vstr s => exact ⟨'"', _, by rw [renderP, strChars], by decide, by decide, by decide, by decide, by decide⟩
  | varr es =>
    cases es with
    | nil => exact ⟨'[', _, by rw [renderP], by decide, by decide, by decide, by decide, by decide⟩
    | cons x xs => exact ⟨'[', _, by rw [renderP], by decide, by decide, by decide, by decide, by decide⟩
  | vobj ms =>
    cases ms with
    | nil => exact ⟨'\x7b', _, by rw [renderP], by decide, by decide, by decide, by decide, by decide⟩
    | cons m ms' => exact ⟨'\x7b', _, by rw [renderP], by decide, by decide, by decide, by decide, by decide⟩
  | vnum q =>
    have hr : renderP d (.vnum q) = numChars q := by rw [renderP]
    rw [hr]
    unfold numChars
    by_cases hden : q.den = 1
    · rw [if_pos hden]
      unfold intChars
      by_cases hneg : q.num < 0
      · rw [if_pos hneg]
        exact ⟨'-', _, rfl, by decide, by decide, by decide, by decide, by decide⟩
      · rw [if_neg hneg]
        obtain ⟨c0, t0, h0, hc0⟩ := natChars_head q.num.natAbs
        obtain ⟨hw, _, _, hcm, hbr, hbc, _, _, _, _, _, _, hcl⟩ := isDig_excl hc0
        exact ⟨c0, t0, by rw [List.nil_append, h0], hw, hbr, hbc, hcm, hcl⟩
    · rw [if_neg hden]
      by_cases hneg : q < 0
      · rw [if_pos hneg]
        exact ⟨'-', _, rfl, by decide, by decide, by decide, by decide, by decide⟩
      · rw [if_neg hneg]
        obtain ⟨c0, t0, h0, hc0⟩ :=
          natChars_head (q.floor.natAbs + if q < 0 ∧ q.floor < q then 1 else 0)
        obtain ⟨hw, _, _, hcm, hbr, hbc, _, _, _, _, _, _, hcl⟩ := isDig_excl hc0
        refine ⟨c0, t0 ++ '.' :: fracChars 64 (|q| - (|q|).floor), ?_, hw, hbr, hbc, hcm, hcl⟩
        rw [List.nil_append, h0]
        simp

/-! ### Round trip: dispatch lemmas for each value shape -/

theorem numStop_cons {c : Char} (h1 : isDig c = false) (h2 : (c == '.') = false)
    (t : List Char) : numStop (c :: t) = true := by
  simp [numStop, h1, h2]

theorem intsOnly_arr {es : List Value} :
    intsOnly (.varr es) = true ↔ ∀ y ∈ es, intsOnly y = true := by
  rw [intsOnly]
  simp [List.all_eq_true]

theorem intsOnly_obj {ms : List (String × Value)} :
    intsOnly (.vobj ms) = true ↔ ∀ m ∈ ms, intsOnly m.2 = true := by
  rw [intsOnly]
  simp [List.all_eq_true]

/-- Head shape of a rendered integer: a minus sign or digit, acceptable to the
number branch and to no earlier branch. -/
theorem intChars_head (i : Int) :
    ∃ c t, intChars i = c :: t ∧ isJWs c = false ∧ (c == '-' || isDig c) = true ∧
      c ≠ 'n' ∧ c ≠ 't' ∧ c ≠ 'f' ∧ c ≠ '"' ∧ c ≠ '[' ∧ c ≠ '\x7b' := by
  by_cases hneg : i < 0
  · refine ⟨'-', natChars i.natAbs [], ?_, by decide, by decide, by decide, by decide,
      by decide, by decide, by decide, by decide⟩
    simp [intChars, hneg]
  · obtain ⟨c0, t0, h0, hc0⟩ := natChars_head i.natAbs
    obtain ⟨hw, _, _, _, _, _, hn, ht, hf, hq, hbk, hbc, _⟩ := isDig_excl hc0
    refine ⟨c0, t0, ?_, hw, by simp [hc0], hn, ht, hf, hq, hbk, hbc⟩
    simp [intChars, hneg, h0]

/-- The value reader accepts a rendered whole number. -/
theorem parseJVal_num (q : Rat) (hden : q.den = 1) (d f : Nat) (rest : List Char)
    (hr : numStop rest = true) :
    parseJVal (f + 1) (renderP d (.vnum q) ++ rest) = some (.vnum q, rest) := by
  obtain ⟨c0, t0, hic, hw, hg, hn, ht', hf', hq', hbk, hbc⟩ := intChars_head q.num
  have hstream : renderP d (.vnum q) ++ rest = c0 :: (t0 ++ rest) := by
    rw [renderP]
    unfold numChars
    rw [if_pos hden, hic]
    simp
  have hback : (c0 : Char) :: (t0 ++ rest) = intChars q.num ++ rest := by
    rw [hic, List.cons_append]
  have hqq : ((q.num : Rat)) = q := (Rat.den_eq_one_iff q).mp hden
  rw [hstream, parseJVal_succ, skipWs_nws hw]
  simp only [if_neg hn, if_neg ht', if_neg hf', if_neg hq', if_neg hbk, if_neg hbc, hg,
    if_true]
  rw [hback, scanNum_intChars _ _ hr, hqq]

/-- The value reader accepts a rendered string. -/
theorem parseJVal_str (s : String) (d f : Nat) (rest : List Char) :
    parseJVal (f + 1) (renderP d (.vstr s) ++ rest) = some (.vstr s, rest) := by
  have hstream : renderP d (.vstr s) ++ rest
      = '"' :: (s.toList.flatMap escC ++ '"' :: rest) := by
    rw [renderP]
    simp [strChars]
  rw [hstream, parseJVal_succ, skipWs_nws (by decide)]
  simp only [if_neg (by decide : ¬('"' = 'n')), if_neg (by decide : ¬('"' = 't')),
    if_neg (by decide : ¬('"' = 'f')), if_pos rfl]
  rw [strBody_render]
  simp

/-- The value reader accepts the `null` and boolean literals. -/
theorem parseJVal_null (d f : Nat) (rest : List Char) :
    parseJVal (f + 1) (renderP d .vnull ++ rest) = some (.vnull, rest) := by
  rw [renderP, parseJVal_succ]
  simp [skipWs, isJWs, expectRun]

theorem parseJVal_bool (b : Bool) (d f : Nat) (rest : List Char) :
    parseJVal (f + 1) (renderP d (.vbool b) ++ rest) = some (.vbool b, rest) := by
  cases b <;>
    · rw [renderP, parseJVal_succ]
      simp [skipWs, isJWs, expectRun]

/-- The value reader accepts empty arrays and objects. -/
theorem parseJVal_arr_nil (d f : Nat) (rest : List Char) :
    parseJVal (f + 1) (renderP d (.varr []) ++ rest) = some (.varr [], rest) := by
  rw [renderP, parseJVal_succ]
  simp [skipWs, isJWs]

theorem parseJVal_obj_nil (d f : Nat) (rest : List Char) :
    parseJVal (f + 1) (renderP d (.vobj []) ++ rest) = some (.vobj [], rest) := by
  rw [renderP, parseJVal_succ]
  simp [skipWs, isJWs]

/-- The value reader on a rendered nonempty array reduces to the element
reader, positioned at the first element's first character. -/
theorem parseJVal_arr_cons (x : Value) (xs : List Value) (d f : Nat) (rest : List Char) :
    parseJVal (f + 1) (renderP d (.varr (x :: xs)) ++ rest)
      = (match parseJElems f (renderP (d + 1) x ++
            (renderItemsSep d xs ++ ('\n' :: (ind2 d ++ (']' :: rest))))) with
         | some (es, r2) => some (.varr es, r2)
         | none => none) := by
  obtain ⟨c1, t1, hx, hw1, hbr1, hbc1, hcm1, hcl1⟩ := renderP_head (d + 1) x
  have hstream : renderP d (.varr (x :: xs)) ++ rest
      = '[' :: ('\n' :: (ind2 (d + 1) ++ (renderP (d + 1) x ++
          (renderItemsSep d xs ++ ('\n' :: (ind2 d ++ (']' :: rest))))))) := by
    rw [renderP, renderItems]
    simp
  have hskip : skipWs ('\n' :: (ind2 (d + 1) ++ (renderP (d + 1) x ++
        (renderItemsSep d xs ++ ('\n' :: (ind2 d ++ (']' :: rest)))))))
      = c1 :: (t1 ++ (renderItemsSep d xs ++ ('\n' :: (ind2 d ++ (']' :: rest))))) := by
    rw [show ('\n' :: (ind2 (d + 1) ++ (renderP (d + 1) x ++
        (renderItemsSep d xs ++ ('\n' :: (ind2 d ++ (']' :: rest)))))))
        = ('\n' :: ind2 (d + 1)) ++ (renderP (d + 1) x ++
            (renderItemsSep d xs ++ ('\n' :: (ind2 d ++ (']' :: rest))))) from rfl,
      skipWs_append (allWs_nl_ind2 (d + 1)), hx, List.cons_append, skipWs_nws hw1]
  rw [hstream, parseJVal_succ, skipWs_nws (by decide)]
  simp only [if_neg (show ¬('[' = 'n') from by decide),
    if_neg (show ¬('[' = 't') from by decide), if_neg (show ¬('[' = 'f') from by decide),
    if_neg (show ¬('[' = '"') from by decide), if_pos rfl, hskip, if_neg hbr1]
  rw [show (c1 :: (t1 ++ (renderItemsSep d xs ++ ('\n' :: (ind2 d ++ (']' :: rest))))))
      = renderP (d + 1) x ++ (renderItemsSep d xs ++ ('\n' :: (ind2 d ++ (']' :: rest))))
      from by rw [hx, List.cons_append]]
  simp

/-- The value reader on a rendered nonempty object reduces to the member
reader (whose own whitespace skipping swallows the indentation). -/
theorem parseJVal_obj_cons (kv : String × Value) (ms : List (String × Value))
    (d f : Nat) (rest : List Char) :
    parseJVal (f + 1) (renderP d (.vobj (kv :: ms)) ++ rest)
      = (match parseJMembers f (renderMembers d (kv :: ms) ++
            ('\n' :: (ind2 d ++ ('\x7d' :: rest)))) with
         | some (ms', r2) => some (.vobj ms', r2)
         | none => none) := by
  obtain ⟨k, v⟩ := kv
  have hmem : renderMembers d ((k, v) :: ms) ++ ('\n' :: (ind2 d ++ ('\x7d' :: rest)))
      = ind2 (d + 1) ++ ('"' :: ((k.toList.flatMap escC ++ ['"']) ++
          (':' :: ' ' :: renderP (d + 1) v ++ renderMembersSep d ms ++
            ('\n' :: (ind2 d ++ ('\x7d' :: rest)))))) := by
    rw [renderMembers, strChars]
    simp
  have hstream : renderP d (.vobj ((k, v) :: ms)) ++ rest
      = '\x7b' :: (('\n' :: ind2 (d + 1)) ++ ('"' :: ((k.toList.flatMap escC ++ ['"']) ++
          (':' :: ' ' :: renderP (d + 1) v ++ renderMembersSep d ms ++
            ('\n' :: (ind2 d ++ ('\x7d' :: rest))))))) := by
    rw [renderP, renderMembers, strChars]
    simp
  have hskip : skipWs (('\n' :: ind2 (d + 1)) ++ ('"' :: ((k.toList.flatMap escC ++ ['"']) ++
        (':' :: ' ' :: renderP (d + 1) v ++ renderMembersSep d ms ++
          ('\n' :: (ind2 d ++ ('\x7d' :: rest)))))))
      = '"' :: ((k.toList.flatMap escC ++ ['"']) ++
          (':' :: ' ' :: renderP (d + 1) v ++ renderMembersSep d ms ++
            ('\n' :: (ind2 d ++ ('\x7d' :: rest))))) := by
    rw [skipWs_append (allWs_nl_ind2 (d + 1)), skipWs_nws (by decide)]
  rw [hstream, parseJVal_succ, skipWs_nws (by decide)]
  simp only [if_neg (show ¬('\x7b' = 'n') from by decide),
    if_neg (show ¬('\x7b' = 't') from by decide), if_neg (show ¬('\x7b' = 'f') from by decide),
    if_neg (show ¬('\x7b' = '"') from by decide), if_neg (show ¬('\x7b' = '[') from by decide),
    if_pos rfl, hskip, if_neg (show ¬('"' = '\x7d') from by decide)]
  rw [show parseJMembers f ('"' :: ((k.toList.flatMap escC ++ ['"']) ++
        (':' :: ' ' :: renderP (d + 1) v ++ renderMembersSep d ms ++
          ('\n' :: (ind2 d ++ ('\x7d' :: rest))))))
      = parseJMembers f (renderMembers d ((k, v) :: ms) ++
          ('\n' :: (ind2 d ++ ('\x7d' :: rest)))) from by
    rw [hmem, parseJMembers_ws f (allWs_ind2 (d + 1))]]
  simp

mutual
/-- Parsing a rendered value (in the whole-number fragment) recovers it
exactly, leaving the remainder untouched. -/
theorem rtVal : ∀ (v : Value) (d fuel : Nat) (rest : List Char),
    intsOnly v = true → (renderP d v).length < fuel → numStop rest = true →
    parseJVal fuel (renderP d v ++ rest) = some (v, rest)
  | .vnull, d, fuel, rest, _, hf, _ => by
    cases fuel with
    | zero => exact absurd hf (Nat.not_lt_zero _)
    | succ f => exact parseJVal_null d f rest
  | .vnan, _, _, _, hv, _, _ => by
    rw [intsOnly] at hv
    exact absurd hv (by simp)
  | .vbool b, d, fuel, rest, _, hf, _ => by
    cases fuel with
    | zero => exact absurd hf (Nat.not_lt_zero _)
    | succ f => exact parseJVal_bool b d f rest
  | .vnum q, d, fuel, rest, hv, hf, hr => by
    cases fuel with
    | zero => exact absurd hf (Nat.not_lt_zero _)
    | succ f =>
      rw [intsOnly] at hv
      exact parseJVal_num q (by simpa using hv) d f rest hr
  | .vstr s, d, fuel, rest, _, hf, _ => by
    cases fuel with
    | zero => exact absurd hf (Nat.not_lt_zero _)
    | succ f => exact parseJVal_str s d f rest
  | .varr [], d, fuel, rest, _, hf, _ => by
    cases fuel with
    | zero => exact absurd hf (Nat.not_lt_zero _)
    | succ f => exact parseJVal_arr_nil d f rest
  | .varr (x :: xs), d, fuel, rest, hv, hf, _ => by
    cases fuel with
    | zero => exact absurd hf (Nat.not_lt_zero _)
    | succ f =>
      have hall : ∀ y ∈ x :: xs, intsOnly y = true := intsOnly_arr.mp hv
      have hlen : (renderItems d (x :: xs)).length < f := by
        rw [renderP] at hf
        simp only [List.length_cons, List.length_append, ind2, List.length_replicate] at hf
        omega
      rw [parseJVal_arr_cons, rtItems x xs d f rest hall hlen]
  | .vobj [], d, fuel, rest, _, hf, _ => by
    cases fuel with
    | zero => exact absurd hf (Nat.not_lt_zero _)
    | succ f => exact parseJVal_obj_nil d f rest
  | .vobj (m :: ms), d, fuel, rest, hv, hf, _ => by
    cases fuel with
    | zero => exact absurd hf (Nat.not_lt_zero _)
    | succ f =>
      have hall : ∀ y ∈ m :: ms, intsOnly y.2 = true := intsOnly_obj.mp hv
      have hlen : (renderMembers d (m :: ms)).length < f := by
        rw [renderP] at hf
        simp only [List.length_cons, List.length_append, ind2, List.length_replicate] at hf
        omega
      rw [parseJVal_obj_cons m ms, rtMembers m ms d f rest hall hlen]
termination_by v _ _ _ _ _ _ => sizeOf v
decreasing_by
  all_goals simp_wf
  all_goals omega

/-- Parsing the rendered elements of a nonempty array recovers them. -/
theorem rtItems : ∀ (x : Value) (xs : List Value) (d fuel : Nat) (rest : List Char),
    (∀ y ∈ x :: xs, intsOnly y = true) →
    (renderItems d (x :: xs)).length < fuel →
    parseJElems fuel (renderP (d + 1) x ++
        (renderItemsSep d xs ++ ('\n' :: (ind2 d ++ (']' :: rest)))))
      = some (x :: xs, rest)
  | x, [], d, fuel, rest, hall, hf => by
    cases fuel with
    | zero => exact absurd hf (Nat.not_lt_zero _)
    | succ f =>
      have hx : intsOnly x = true := hall x (by simp)
      have hlen : (renderP (d + 1) x).length < f := by
        rw [renderItems] at hf
        simp only [List.length_append, ind2, List.length_replicate, renderItemsSep,
          List.length_nil] at hf
        omega
      have hsep : renderItemsSep d ([] : List Value) ++ ('\n' :: (ind2 d ++ (']' :: rest)))
          = ('\n' :: (ind2 d ++ (']' :: rest))) := by
        rw [renderItemsSep]
        simp
      have hv := rtVal x (d + 1) f ('\n' :: (ind2 d ++ (']' :: rest))) hx hlen
        (numStop_cons (by decide) (by decide) _)
      have hskip : skipWs ('\n' :: (ind2 d ++ (']' :: rest))) = ']' :: rest := by
        rw [show ('\n' :: (ind2 d ++ (']' :: rest))) = ('\n' :: ind2 d) ++ (']' :: rest)
          from rfl, skipWs_append (allWs_nl_ind2 d), skipWs_nws (by decide)]
      rw [parseJElems_succ, hsep, hv]
      simp [hskip]
  | x, y :: ys, d, fuel, rest, hall, hf => by
    cases fuel with
    | zero => exact absurd hf (Nat.not_lt_zero _)
    | succ f =>
      have hx : intsOnly x = true := hall x (by simp)
      have hlens : (renderItems d (x :: y :: ys)).length
          = 2 * (d + 1) + (renderP (d + 1) x).length
            + (2 + (renderItems d (y :: ys)).length) := by
        rw [show renderItems d (x :: y :: ys)
            = ind2 (d + 1) ++ renderP (d + 1) x ++ renderItemsSep d (y :: ys)
            from by rw [renderItems], renderItemsSep]
        simp only [List.length_append, ind2, List.length_replicate, List.length_cons]
        omega
      have hlx : (renderP (d + 1) x).length < f := by omega
      have hltail : (renderItems d (y :: ys)).length < f := by omega
      have hv := rtVal x (d + 1) f
        (renderItemsSep d (y :: ys) ++ ('\n' :: (ind2 d ++ (']' :: rest)))) hx hlx
        (by rw [renderItemsSep]; exact numStop_cons (by decide) (by decide) _)
      have hkey := rtItems y ys d f rest (fun z hz => hall z (by simp [hz])) hltail
      have hsep : renderItemsSep d (y :: ys) ++ ('\n' :: (ind2 d ++ (']' :: rest)))
          = ',' :: ('\n' :: (ind2 (d + 1) ++ (renderP (d + 1) y
              ++ (renderItemsSep d ys ++ ('\n' :: (ind2 d ++ (']' :: rest))))))) := by
        rw [renderItemsSep, renderItems]
        simp
      have hskip : skipWs (renderItemsSep d (y :: ys) ++ ('\n' :: (ind2 d ++ (']' :: rest))))
          = ',' :: ('\n' :: (ind2 (d + 1) ++ (renderP (d + 1) y
              ++ (renderItemsSep d ys ++ ('\n' :: (ind2 d ++ (']' :: rest))))))) := by
        rw [hsep]
        exact skipWs_nws (by decide) _
      have hws : parseJElems f ('\n' :: (ind2 (d + 1) ++ (renderP (d + 1) y
            ++ (renderItemsSep d ys ++ ('\n' :: (ind2 d ++ (']' :: rest)))))))
          = some (y :: ys, rest) := by
        rw [show ('\n' :: (ind2 (d + 1) ++ (renderP (d + 1) y
              ++ (renderItemsSep d ys ++ ('\n' :: (ind2 d ++ (']' :: rest)))))))
            = ('\n' :: ind2 (d + 1)) ++ (renderP (d + 1) y
                ++ (renderItemsSep d ys ++ ('\n' :: (ind2 d ++ (']' :: rest)))))
            from rfl, parseJElems_ws f (allWs_nl_ind2 (d + 1)), hkey]
      rw [parseJElems_succ, hv]
      simp [hskip, hws]
termination_by x xs _ _ _ _ _ => sizeOf x + sizeOf xs
decreasing_by
  all_goals simp_wf
  all_goals omega

/-- Parsing the rendered members of a nonempty object recovers them. -/
theorem rtMembers : ∀ (kv : String × Value) (ms : List (String × Value)) (d fuel : Nat)
    (rest : List Char),
    (∀ m ∈ kv :: ms, intsOnly m.2 = true) →
    (renderMembers d (kv :: ms)).length < fuel →
    parseJMembers fuel (renderMembers d (kv :: ms) ++ ('\n' :: (ind2 d ++ ('\x7d' :: rest))))
      = some (kv :: ms, rest)
  | (k, v), [], d, fuel, rest, hall, hf => by
    cases fuel with
    | zero => exact absurd hf (Nat.not_lt_zero _)
    | succ f =>
      have hkv : intsOnly v = true := hall (k, v) (by simp)
      have hlen : (renderP (d + 1) v).length < f := by
        rw [renderMembers] at hf
        simp only [List.length_append, ind2, List.length_replicate, renderMembersSep,
          List.length_nil, List.length_cons, strChars] at hf
        omega
      have hv := rtVal v (d + 1) f ('\n' :: (ind2 d ++ ('\x7d' :: rest))) hkv hlen
        (numStop_cons (by decide) (by decide) _)
      have hstream : renderMembers d ((k, v) :: []) ++ ('\n' :: (ind2 d ++ ('\x7d' :: rest)))
          = ind2 (d + 1) ++ ('"' :: (k.data.flatMap escC ++ '"' ::
              (':' :: (' ' :: (renderP (d + 1) v
                ++ ('\n' :: (ind2 d ++ ('\x7d' :: rest)))))))) := by
        rw [renderMembers, renderMembersSep, strChars]
        simp
      have hsb : strBody [] (k.data.flatMap escC ++ '"' ::
            (':' :: (' ' :: (renderP (d + 1) v ++ ('\n' :: (ind2 d ++ ('\x7d' :: rest)))))))
          = some (k, ':' :: (' ' :: (renderP (d + 1) v
              ++ ('\n' :: (ind2 d ++ ('\x7d' :: rest)))))) := strBody_render k _
      have hpv : parseJVal f (' ' :: (renderP (d + 1) v
            ++ ('\n' :: (ind2 d ++ ('\x7d' :: rest)))))
          = some (v, '\n' :: (ind2 d ++ ('\x7d' :: rest))) := by
        rw [show (' ' :: (renderP (d + 1) v ++ ('\n' :: (ind2 d ++ ('\x7d' :: rest)))))
            = [' '] ++ (renderP (d + 1) v ++ ('\n' :: (ind2 d ++ ('\x7d' :: rest))))
            from rfl, parseJVal_ws f (by decide), hv]
      have hskip : skipWs ('\n' :: (ind2 d ++ ('\x7d' :: rest))) = '\x7d' :: rest := by
        rw [show ('\n' :: (ind2 d ++ ('\x7d' :: rest))) = ('\n' :: ind2 d) ++ ('\x7d' :: rest)
          from rfl, skipWs_append (allWs_nl_ind2 d), skipWs_nws (by decide)]
      rw [hstream, parseJMembers_ws (f + 1) (allWs_ind2 (d + 1)), parseJMembers_succ,
        skipWs_nws (by decide)]
      simp [hsb, skipWs_nws (show isJWs ':' = false from by decide), hpv, hskip]
  | (k, v), m :: ms, d, fuel, rest, hall, hf => by
    cases fuel with
    | zero => exact absurd hf (Nat.not_lt_zero _)
    | succ f =>
      have hkv : intsOnly v = true := hall (k, v) (by simp)
      have hlens : (renderMembers d ((k, v) :: m :: ms)).length
          = 2 * (d + 1) + (strChars k).length + 2 + (renderP (d + 1) v).length
            + (2 + (renderMembers d (m :: ms)).length) := by
        rw [show renderMembers d ((k, v) :: m :: ms)
            = ind2 (d + 1) ++ strChars k ++ ':' :: ' ' :: renderP (d + 1) v
              ++ renderMembersSep d (m :: ms)
            from by rw [renderMembers], renderMembersSep]
        simp only [List.length_append, ind2, List.length_replicate, List.length_cons]
        omega
      have hlx : (renderP (d + 1) v).length < f := by omega
      have hltail : (renderMembers d (m :: ms)).length < f := by omega
      have hv := rtVal v (d + 1) f
        (renderMembersSep d (m :: ms) ++ ('\n' :: (ind2 d ++ ('\x7d' :: rest)))) hkv hlx
        (by rw [renderMembersSep]; exact numStop_cons (by decide) (by decide) _)
      have hkey := rtMembers m ms d f rest (fun z hz => hall z (by simp [hz])) hltail
      have hstream : renderMembers d ((k, v) :: m :: ms)
            ++ ('\n' :: (ind2 d ++ ('\x7d' :: rest)))
          = ind2 (d + 1) ++ ('"' :: (k.data.flatMap escC ++ '"' ::
              (':' :: (' ' :: (renderP (d + 1) v ++ (renderMembersSep d (m :: ms)
                ++ ('\n' :: (ind2 d ++ ('\x7d' :: rest))))))))) := by
        rw [show renderMembers d ((k, v) :: m :: ms)
            = ind2 (d + 1) ++ strChars k ++ ':' :: ' ' :: renderP (d + 1) v
              ++ renderMembersSep d (m :: ms)
            from by rw [renderMembers], strChars]
        simp
      have hsb : strBody [] (k.data.flatMap escC ++ '"' ::
            (':' :: (' ' :: (renderP (d + 1) v ++ (renderMembersSep d (m :: ms)
              ++ ('\n' :: (ind2 d ++ ('\x7d' :: rest))))))))
          = some (k, ':' :: (' ' :: (renderP (d + 1) v ++ (renderMembersSep d (m :: ms)
              ++ ('\n' :: (ind2 d ++ ('\x7d' :: rest))))))) := strBody_render k _
      have hpv : parseJVal f (' ' :: (renderP (d + 1) v ++ (renderMembersSep d (m :: ms)
            ++ ('\n' :: (ind2 d ++ ('\x7d' :: rest))))))
          = some (v, renderMembersSep d (m :: ms)
              ++ ('\n' :: (ind2 d ++ ('\x7d' :: rest)))) := by
        rw [show (' ' :: (renderP (d + 1) v ++ (renderMembersSep d (m :: ms)
              ++ ('\n' :: (ind2 d ++ ('\x7d' :: rest))))))
            = [' '] ++ (renderP (d + 1) v ++ (renderMembersSep d (m :: ms)
                ++ ('\n' :: (ind2 d ++ ('\x7d' :: rest)))))
            from rfl, parseJVal_ws f (by decide), hv]
      have hsep : renderMembersSep d (m :: ms) ++ ('\n' :: (ind2 d ++ ('\x7d' :: rest)))
          = ',' :: ('\n' :: (renderMembers d (m :: ms)
              ++ ('\n' :: (ind2 d ++ ('\x7d' :: rest))))) := by
        rw [renderMembersSep]
        simp
      have hskip : skipWs (renderMembersSep d (m :: ms)
            ++ ('\n' :: (ind2 d ++ ('\x7d' :: rest))))
          = ',' :: ('\n' :: (renderMembers d (m :: ms)
              ++ ('\n' :: (ind2 d ++ ('\x7d' :: rest))))) := by
        rw [hsep]
        exact skipWs_nws (by decide) _
      have htail : parseJMembers f ('\n' :: (renderMembers d (m :: ms)
            ++ ('\n' :: (ind2 d ++ ('\x7d' :: rest)))))
          = some (m :: ms, rest) := by
        rw [show ('\n' :: (renderMembers d (m :: ms) ++ ('\n' :: (ind2 d ++ ('\x7d' :: rest)))))
            = ['\n'] ++ (renderMembers d (m :: ms) ++ ('\n' :: (ind2 d ++ ('\x7d' :: rest))))
            from rfl, parseJMembers_ws f (by decide), hkey]
      rw [hstream, parseJMembers_ws (f + 1) (allWs_ind2 (d + 1)), parseJMembers_succ,
        skipWs_nws (by decide)]
      simp [hsb, skipWs_nws (show isJWs ':' = false from by decide), hpv, hskip, htail]
termination_by kv ms _ _ _ _ _ => sizeOf kv + sizeOf ms
decreasing_by
  all_goals simp_wf
  all_goals omega
end

/-- **Codec round trip**: within the whole-number fragment, parsing the
pretty-printed serialization of a value recovers a deep-equal value. -/
theorem jsonParse_stringifyPretty (v : Value) (hv : intsOnly v = true) :
    jsonParse (stringifyPretty v) = some v := by
  have h := rtVal v 0 ((renderP 0 v).length + 1) [] hv (by omega) rfl
  rw [List.append_nil] at h
  unfold jsonParse stringifyPretty
  rw [show (String.mk (renderP 0 v)).toList = renderP 0 v from rfl, h]
  simp [skipWs]

/-! ## The wire model: FHIR `Parameters` parameters

`ParametersParameter` is modelled as a recursive record: a name, the `value[x]`
wire fields as an insertion-ordered association list (a JS object's own
properties), an optional annotation list (`extension`), an optional embedded
document (`resource`), and optional children (`part`).  `Option` models JS
property presence (`undefined` when absent); an explicitly-`null` wire field is
a present `vnull`. -/

/-- A FHIR extension as the server uses it: a URL plus an optional
`valueString` (kept as a `Value` so a non-string payload is representable,
as `parseResourceParameter`'s `typeof` test requires). -/
structure FhirExtension where
  url : String
  valueString : Option Value := none
deriving Repr

/-- A `ParametersParameter`. -/
inductive Param where
  | mk (name : String) (fields : List (String × Value)) (extension : Option (List FhirExtension))
      (resource : Option Value) (part : Option (List Param))
deriving Repr

def Param.name : Param → String
  | .mk n _ _ _ _ => n

def Param.fields : Param → List (String × Value)
  | .mk _ f _ _ _ => f

def Param.extension : Param → Option (List FhirExtension)
  | .mk _ _ e _ _ => e

def Param.resource : Param → Option Value
  | .mk _ _ _ r _ => r

def Param.part : Param → Option (List Param)
  | .mk _ _ _ _ p => p

/-- Write one `value[x]` wire field (JS property assignment). -/
def Param.setField (p : Param) (k : String) (v : Value) : Param :=
  .mk p.name (aset p.fields k v) p.extension p.resource p.part

/-- Replace the extension list (JS `param.extension = [...]`, and
`delete param.extension` with `none`). -/
def Param.withExt (p : Param) (es : Option (List FhirExtension)) : Param :=
  .mk p.name p.fields es p.resource p.part

/-- Rename the parameter (JS `param.name = ...`). -/
def Param.withName (p : Param) (n : String) : Param :=
  .mk n p.fields p.extension p.resource p.part

/-- `param.extension = param.extension || []; param.extension.push(e)`. -/
def Param.pushExt (p : Param) (e : FhirExtension) : Param :=
  .mk p.name p.fields (some ((p.extension.getD []) ++ [e])) p.resource p.part

/-- The extension URLs from `utils.ts`. -/
def RESOURCE_PATH_EXTENSION_URL : String :=
  "http://fhir.forms-lab.com/StructureDefinition/resource-path"

def JSON_VALUE_EXTENSION_URL : String :=
  "http://fhir.forms-lab.com/StructureDefinition/json-value"

def XML_VALUE_EXTENSION_URL : String :=
  "http://fhir.forms-lab.com/StructureDefinition/xml-value"

/-- The 49 `value[x]` keys of `PARAMETER_VALUE_KEYS` that live in `fields`
(the trailing `resource` / `part` / `extension` keys are the record's other
components, probed after these in `getParameterPrimaryValue`). -/
def PARAMETER_VALUE_FIELD_KEYS : List String :=
  ["valueString", "valueBoolean", "valueInteger", "valueDecimal", "valueDate",
   "valueTime", "valueDateTime", "valueInstant", "valueCode", "valueBase64Binary",
   "valueCanonical", "valueId", "valueMarkdown", "valueOid", "valuePositiveInt",
   "valueUnsignedInt", "valueUri", "valueUrl", "valueUuid", "valueQuantity",
   "valueHumanName", "valueContactPoint", "valueAddress", "valueIdentifier",
   "valueCodeableConcept", "valueCoding", "valuePeriod", "valueRange", "valueRatio",
   "valueReference", "valueAttachment", "valueAge", "valueCount", "valueDistance",
   "valueDuration", "valueMoney", "valueAnnotation", "valueSampledData",
   "valueSignature", "valueTiming", "valueContactDetail", "valueContributor",
   "valueDataRequirement", "valueExpression", "valueParameterDefinition",
   "valueRelatedArtifact", "valueTriggerDefinition", "valueUsageContext",
   "valueDosage", "valueMeta"]

/-- The primary value of a parameter: a plain value, child parts, or
extensions (the three shapes `PARAMETER_VALUE_KEYS` can surface). -/
inductive PValue where
  | val (v : Value)
  | parts (ps : List Param)
  | exts (es : List FhirExtension)
deriving Repr

/-- Explicit-null test (`value !== null`). -/
def isNullV : Value → Bool
  | .vnull => true
  | _ => false

/-- `getParameterPrimaryValue`: the first key of `PARAMETER_VALUE_KEYS` whose
value is neither undefined nor null. -/
def getParameterPrimaryValue (p : Param) : Option PValue :=
  match PARAMETER_VALUE_FIELD_KEYS.findSome? (fun k =>
      match alookup p.fields k with
      | some v => if isNullV v then none else some v
      | none => none) with
  | some v => some (.val v)
  | none =>
    match p.resource with
    | some v => if isNullV v then none else some (.val v)
    | none =>
      match p.part with
      | some ps => some (.parts ps)
      | none =>
        match p.extension with
        | some es => some (.exts es)
        | none => none

/-- `pushAdditionalInput`: create the key with an empty list if absent, then
push (association list with JS-object insertion order). -/
def pushAdditionalInput (additional : List (String × List Param)) (name : String)
    (parameter : Param) : List (String × List Param) :=
  if additional.any (fun kv => kv.1 == name) then
    additional.map (fun kv => if kv.1 == name then (kv.1, kv.2 ++ [parameter]) else kv)
  else additional ++ [(name, [parameter])]

/-- `ResourceDescriptor` from `types.ts` as `parseResourceParameter` fills it. -/
structure ResourceDescriptor where
  source : String
  parameter : Param
  contentType : Option String := none
  serializedContent : Option String := none
  parseError : Option String := none
deriving Repr

/-- `parseResourceParameter`: inline resource first, then the JSON-extension
convention (parse failure records `parseError`; the JS parser's message is
modelled by a fixed string), then the XML-extension convention (always an
error), else `missing`.  `JSON.parse` is modelled by `jsonParse`. -/
def parseResourceParameter (parameter : Param) :
    Option Value × ResourceDescriptor :=
  match parameter.resource with
  | some res =>
    let d : ResourceDescriptor :=
      { source := "inline-resource", parameter := parameter }
    (some res, d)
  | none =>
    let extensions := parameter.extension.getD []
    let jsonValue : Option String :=
      match extensions.find? (fun e => e.url == JSON_VALUE_EXTENSION_URL) with
      | some e =>
        match e.valueString with
        | some (.vstr s) => some s
        | _ => none
      | none => none
    if truthyStr jsonValue then
      let s := jsonValue.getD ""
      match jsonParse s with
      | some parsed =>
        let d : ResourceDescriptor :=
          { source := "json-extension", contentType := some "json",
            serializedContent := some s, parameter := parameter }
        (some parsed, d)
      | none =>
        let d : ResourceDescriptor :=
          { source := "json-extension", contentType := some "json",
            serializedContent := some s, parseError := some "Invalid JSON payload",
            parameter := parameter }
        (none, d)
    else
      let xmlValue : Option String :=
        match extensions.find? (fun e => e.url == XML_VALUE_EXTENSION_URL) with
        | some e =>
          match e.valueString with
          | some (.vstr s) => some s
          | _ => none
        | none => none
      if truthyStr xmlValue then
        let d : ResourceDescriptor :=
          { source := "xml-extension", contentType := some "xml",
            serializedContent := some (xmlValue.getD ""),
            parseError := some "XML resource inputs are not supported yet",
            parameter := parameter }
        (none, d)
      else
        let d : ResourceDescriptor :=
          { source := "missing", parameter := parameter }
        (none, d)

/-- `EvaluationParameterExtraction`. -/
structure EvaluationParameterExtraction where
  additionalInputs : List (String × List Param) := []
  expression : Option String := none
  expressionParameter : Option Param := none
  contextExpression : Option String := none
  contextParameter : Option Param := none
  resource : Option Value := none
  resourceDescriptor : Option ResourceDescriptor := none
  variablesParameter : Option Param := none
  variableParts : Option (List Param) := none
  terminologyServer : Option String := none
  expectedReturnType : Option String := none
  validate : Option Bool := none
deriving Repr

/-- The primary value, when it is a string (the repeated
`typeof value === 'string'` checks). -/
def primaryString (p : Param) : Option String :=
  match getParameterPrimaryValue p with
  | some (.val (.vstr s)) => some s
  | _ => none

/-- One arm of `extractEvaluationParameters`' switch. -/
def extractStep (acc : EvaluationParameterExtraction) (parameter : Param) :
    EvaluationParameterExtraction :=
  if parameter.name = "expression" then
    { acc with
      expressionParameter := some parameter,
      expression :=
        match alookup parameter.fields "valueString" with
        | some (.vstr s) => some s
        | _ =>
          match primaryString parameter with
          | some s => some s
          | none => acc.expression }
  else if parameter.name = "context" then
    { acc with
      contextParameter := some parameter,
      contextExpression :=
        match alookup parameter.fields "valueString" with
        | some (.vstr s) => some s
        | _ =>
          match primaryString parameter with
          | some s => some s
          | none => acc.contextExpression }
  else if parameter.name = "resource" then
    let rd := parseResourceParameter parameter
    { acc with
      resourceDescriptor := some rd.2,
      resource := if truthyOpt rd.1 then rd.1 else acc.resource }
  else if parameter.name = "variables" then
    { acc with
      variablesParameter := some parameter,
      variableParts :=
        match parameter.part with
        | some ps => some ps
        | none => some [] }
  else if parameter.name = "terminologyserver" then
    { acc with
      terminologyServer :=
        match primaryString parameter with
        | some s => some s
        | none => acc.terminologyServer,
      additionalInputs := pushAdditionalInput acc.additionalInputs parameter.name parameter }
  else if parameter.name = "expectedReturnType" then
    { acc with
      expectedReturnType :=
        match primaryString parameter with
        | some s => some s
        | none => acc.expectedReturnType,
      additionalInputs := pushAdditionalInput acc.additionalInputs parameter.name parameter }
  else if parameter.name = "validate" then
    { acc with
      validate :=
        match alookup parameter.fields "valueBoolean" with
        | some (.vbool b) => some b
        | _ =>
          match primaryString parameter with
          | some s => some (strLower s = "true")
          | none => acc.validate,
      additionalInputs := pushAdditionalInput acc.additionalInputs parameter.name parameter }
  else
    { acc with
      additionalInputs := pushAdditionalInput acc.additionalInputs parameter.name parameter }

/-- `extractEvaluationParameters` over the envelope's parameter list (a missing
`parameter` array yields the empty extraction). -/
def extractEvaluationParameters (parameters : Option (List Param)) :
    EvaluationParameterExtraction :=
  match parameters with
  | none => {}
  | some ps => ps.foldl extractStep {}

/-! ## Variable bindings (`extractVariables` in `fhirpath-service.ts`) -/

/-- JavaScript line terminators, which the regex `.` (no `s` flag) does NOT
match: LF, CR, U+2028 and U+2029. -/
def isLineTerm (c : Char) : Bool :=
  c = '\n' || c = '\r' || c = '\u2028' || c = '\u2029'

/-- The replacement pass of `name.replace(/\\(u\d{4}|.)/g, fn)`: scanning left
to right, a backslash followed by `u` and exactly four decimal digits becomes
the code point those digits denote when read as hexadecimal
(`Number('0x' + digits)`); a backslash followed by any other character maps
the two-character escapes `\r`, `\n`, `\t`, `\f` (backslash + letter) to
their control character and passes the character through otherwise (for `\u`
without four decimal digits the dot alternative consumes just the `u`) —
except that the regex dot does not match a line terminator, so a backslash
followed by LF, CR, U+2028 or U+2029 fails to match and both characters are
kept; a trailing lone backslash matches nothing and stays. -/
def unescapeVarChars : List Char → List Char
  | [] => []
  | '\\' :: 'u' :: d1 :: d2 :: d3 :: d4 :: rest =>
    if isDig d1 && isDig d2 && isDig d3 && isDig d4 then
      Char.ofNat ((((d1.toNat - 48) * 16 + (d2.toNat - 48)) * 16 + (d3.toNat - 48)) * 16
        + (d4.toNat - 48)) :: unescapeVarChars rest
    else 'u' :: unescapeVarChars (d1 :: d2 :: d3 :: d4 :: rest)
  | '\\' :: 'u' :: rest => 'u' :: unescapeVarChars rest
  | '\\' :: 'r' :: rest => '\r' :: unescapeVarChars rest
  | '\\' :: 'n' :: rest => '\n' :: unescapeVarChars rest
  | '\\' :: 't' :: rest => '\t' :: unescapeVarChars rest
  | '\\' :: 'f' :: rest => '\x0c' :: unescapeVarChars rest
  | '\\' :: c :: rest =>
    if isLineTerm c then '\\' :: c :: unescapeVarChars rest
    else c :: unescapeVarChars rest
  | ['\\'] => ['\\']
  | c :: rest => c :: unescapeVarChars rest

/-- `name.startsWith(d) && name.endsWith(d)` then `slice(1, -1)` + unescape;
otherwise the name is untouched. -/
def unwrapIf (delim : Char) (s : String) : String :=
  let cs := s.toList
  if cs.head? = some delim ∧ cs.getLast? = some delim then
    String.mk (unescapeVarChars ((cs.drop 1).dropLast))
  else s

/-- The two unwrap passes of `extractVariables`: backticks first, then single
quotes on the result. -/
def normalizeVarName (name : String) : String :=
  unwrapIf '\'' (unwrapIf '`' name)

/-- JS `a || b` on possibly-absent values: the left operand when truthy. -/
def jsOrV (a b : Option Value) : Option Value :=
  if truthyOpt a then a else b

/-- The binding value chosen for one variable parameter:
`valueString || valueBoolean || valueInteger || valueDecimal || valueDate ||
valueTime || valueDateTime || resource`. -/
def bindingValue (p : Param) : Option Value :=
  jsOrV (alookup p.fields "valueString")
    (jsOrV (alookup p.fields "valueBoolean")
      (jsOrV (alookup p.fields "valueInteger")
        (jsOrV (alookup p.fields "valueDecimal")
          (jsOrV (alookup p.fields "valueDate")
            (jsOrV (alookup p.fields "valueTime")
              (jsOrV (alookup p.fields "valueDateTime") p.resource))))))

/-- JS object write `variables[name] = value` on an insertion-ordered map
whose values may be `undefined`. -/
def assocSetOpt (m : List (String × Option Value)) (k : String) (v : Option Value) :
    List (String × Option Value) :=
  if m.any (fun kv => kv.1 == k) then
    m.map (fun kv => if kv.1 == k then (kv.1, v) else kv)
  else m ++ [(k, v)]

/-- `extractVariables`: fold the variable parts into a JS object, unescaping
names and selecting binding values. -/
def extractVariables (variablesParam : Option (List Param)) :
    List (String × Option Value) :=
  match variablesParam with
  | none => []
  | some ps =>
    ps.foldl (fun vars p => assocSetOpt vars (normalizeVarName p.name) (bindingValue p)) []

/-! ## The typed value encoder (`setParameterValue`)

The repository carries two generations of `utils.ts`; both are embedded.
`setParameterValue` below follows `src/utils.ts` (the module
`fhirpath-service.ts` imports); `setParameterValue2` follows the other
(tab-indented) copy, which guards boxing and handles booleans structurally.
Both quantify over boxed items (`{ value, typeInfo }`), which is the shape the
engine returns under `includeMetadata: true` and the shape both claims range
over. -/

/-- A runtime type descriptor (`typeInfo`); `modelContextPath` stands for
`typeInfo.modelContext.path`. -/
structure TypeInfo where
  name : Option String := none
  type : Option String := none
  singleton : Option Bool := none
  modelContextPath : Option String := none
deriving Repr

/-- A boxed evaluation result value. -/
structure BoxedValue where
  value : Value
  typeInfo : Option TypeInfo := none
deriving Repr

/-- `item.typeInfo?.name || item.typeInfo?.type || 'Any'`. -/
def dataTypeOf (ti : Option TypeInfo) : String :=
  if truthyStr (ti.bind TypeInfo.name) then (ti.bind TypeInfo.name).getD ""
  else if truthyStr (ti.bind TypeInfo.type) then (ti.bind TypeInfo.type).getD ""
  else "Any"

/-- `(item.typeInfo?.modelContext as any)?.path`, kept only when truthy. -/
def modelPathOf (ti : Option TypeInfo) : Option String :=
  if truthyStr (ti.bind TypeInfo.modelContextPath) then ti.bind TypeInfo.modelContextPath
  else none

/-- `Number.isNaN` (no coercion: true only for the NaN number). -/
def jsIsNaN : Value → Bool
  | .vnan => true
  | _ => false

/-- `Number.isInteger`. -/
def jsIsInteger : Value → Bool
  | .vnum q => q.den == 1
  | _ => false

def isStrV : Value → Bool
  | .vstr _ => true
  | _ => false

def isBoolV : Value → Bool
  | .vbool _ => true
  | _ => false

/-- `typeof x === 'number'` (NaN is a number). -/
def isNumV : Value → Bool
  | .vnum _ => true
  | .vnan => true
  | _ => false

/-- Truncation toward zero, as `parseInt` applied to a rendered double. -/
def ratTrunc (q : Rat) : Int := q.num / (q.den : Int)

/-- `parseInt` on a string: skip whitespace, optional sign, a leading decimal
digit run (NaN when there is none).  The `0x` prefix and other exotic JS
corners are outside the model. -/
def parseIntStr (cs : List Char) : Value :=
  match cs.dropWhile isJWs with
  | '-' :: r =>
    match grabDigits r with
    | ([], _) => .vnan
    | (ds, _) => .vnum (-(digitsVal ds : Rat))
  | '+' :: r =>
    match grabDigits r with
    | ([], _) => .vnan
    | (ds, _) => .vnum (digitsVal ds)
  | other =>
    match grabDigits other with
    | ([], _) => .vnan
    | (ds, _) => .vnum (digitsVal ds)

/-- `parseInt(value)`: a finite number truncates toward zero (its string form
re-parsed), NaN stays NaN, a string parses its leading integer, and other
values (which JS would first coerce through `String()`) are modelled as NaN. -/
def jsParseInt : Value → Value
  | .vnum q => .vnum ((ratTrunc q : Int) : Rat)
  | .vnan => .vnan
  | .vstr s => parseIntStr s.toList
  | _ => .vnan

/-- `parseFloat` on a string: skip whitespace, then a sign, digits and an
optional fraction (exponents are outside the model). -/
def parseFloatStr (cs : List Char) : Value :=
  match scanNum (cs.dropWhile isJWs) with
  | some (q, _) => .vnum q
  | none => .vnan

/-- `parseFloat(value)`: a finite number re-parses to itself, NaN stays NaN,
strings parse their leading decimal literal, and other values are NaN. -/
def jsParseFloat : Value → Value
  | .vnum q => .vnum q
  | .vnan => .vnan
  | .vstr s => parseFloatStr s.toList
  | _ => .vnan

/-- The switch shared by both encoder versions: assign the value (parsed for
the integer and decimal families) to the wire field the lowercased type name
selects, or fall back to the embedded-JSON annotation (`fullData`) / the bare
resource-path rename. -/
def assignByDataType (p : Param) (dtLower : String) (v : Value) (fullData : Bool)
    (resourcePath : Option String) : Param :=
  match dtLower with
  | "humanname" => p.setField "valueHumanName" v
  | "contactpoint" => p.setField "valueContactPoint" v
  | "address" => p.setField "valueAddress" v
  | "quantity" => p.setField "valueQuantity" v
  | "age" => p.setField "valueAge" v
  | "count" => p.setField "valueCount" v
  | "distance" => p.setField "valueDistance" v
  | "duration" => p.setField "valueDuration" v
  | "money" => p.setField "valueMoney" v
  | "codeableconcept" => p.setField "valueCodeableConcept" v
  | "coding" => p.setField "valueCoding" v
  | "identifier" => p.setField "valueIdentifier" v
  | "period" => p.setField "valuePeriod" v
  | "range" => p.setField "valueRange" v
  | "ratio" => p.setField "valueRatio" v
  | "reference" => p.setField "valueReference" v
  | "attachment" => p.setField "valueAttachment" v
  | "annotation" => p.setField "valueAnnotation" v
  | "sampleddata" => p.setField "valueSampledData" v
  | "signature" => p.setField "valueSignature" v
  | "timing" => p.setField "valueTiming" v
  | "contactdetail" => p.setField "valueContactDetail" v
  | "contributor" => p.setField "valueContributor" v
  | "datarequirement" => p.setField "valueDataRequirement" v
  | "expression" => p.setField "valueExpression" v
  | "parameterdefinition" => p.setField "valueParameterDefinition" v
  | "relatedartifact" => p.setField "valueRelatedArtifact" v
  | "triggerdefinition" => p.setField "valueTriggerDefinition" v
  | "usagecontext" => p.setField "valueUsageContext" v
  | "dosage" => p.setField "valueDosage" v
  | "meta" => p.setField "valueMeta" v
  | "string" => p.setField "valueString" v
  | "system.string" => p.setField "valueString" v
  | "boolean" => p.setField "valueBoolean" v
  | "integer" => p.setField "valueInteger" (jsParseInt v)
  | "decimal" => p.setField "valueDecimal" (jsParseFloat v)
  | "date" => p.setField "valueDate" v
  | "datetime" => p.setField "valueDateTime" v
  | "time" => p.setField "valueTime" v
  | "instant" => p.setField "valueInstant" v
  | "code" => p.setField "valueCode" v
  | "base64binary" => p.setField "valueBase64Binary" v
  | "canonical" => p.setField "valueCanonical" v
  | "id" => p.setField "valueId" v
  | "markdown" => p.setField "valueMarkdown" v
  | "oid" => p.setField "valueOid" v
  | "positiveint" => p.setField "valuePositiveInt" (jsParseInt v)
  | "unsignedint" => p.setField "valueUnsignedInt" (jsParseInt v)
  | "uri" => p.setField "valueUri" v
  | "url" => p.setField "valueUrl" v
  | "uuid" => p.setField "valueUuid" v
  | _ =>
    if fullData then
      p.pushExt { url := JSON_VALUE_EXTENSION_URL, valueString := some (.vstr (stringifyPretty v)) }
    else
      match resourcePath with
      | some path => ((p.withName "resource-path").setField "valueString" (.vstr path)).withExt none
      | none => p

/-- `setParameterValue` from `src/utils.ts`: resource-path annotation first;
then, with no (truthy) type name or tag, the structural block assigns
`valueInteger`/`valueDecimal` to every non-NaN value (`!Number.isNaN` is true
for booleans, strings and objects alike) and `valueString` to strings NaN
would have let through; otherwise the shared switch runs on the lowercased
type name.  (The truthiness guard `if (!item) return` concerns unboxed null
items and cannot fire for a boxed item.) -/
def setParameterValue (p0 : Param) (item : BoxedValue) (fullData : Bool) : Param :=
  let ti := item.typeInfo
  let dataType := dataTypeOf ti
  let resourcePath := modelPathOf ti
  let p1 :=
    match resourcePath with
    | some path =>
      p0.withExt (some [{ url := RESOURCE_PATH_EXTENSION_URL, valueString := some (.vstr path) }])
    | none => p0
  if !truthyStr (ti.bind TypeInfo.name) && !truthyStr (ti.bind TypeInfo.type) then
    if !jsIsNaN item.value then
      if jsIsInteger item.value then p1.setField "valueInteger" item.value
      else p1.setField "valueDecimal" item.value
    else if isStrV item.value then p1.setField "valueString" item.value
    else assignByDataType p1 (strLower dataType) item.value fullData resourcePath
  else assignByDataType p1 (strLower dataType) item.value fullData resourcePath

/-- `setParameterValue` from the second `utils.ts` copy: for a boxed item
`actualValue`/`typeInfo` are the box's components, and the structural block
tests `typeof`: booleans to `valueBoolean`, non-NaN numbers to
`valueInteger`/`valueDecimal`, strings to `valueString`. -/
def setParameterValue2 (p0 : Param) (item : BoxedValue) (fullData : Bool) : Param :=
  let actualValue := item.value
  let ti := item.typeInfo
  let dataType := dataTypeOf ti
  let resourcePath := modelPathOf ti
  let p1 :=
    match resourcePath with
    | some path =>
      p0.withExt (some [{ url := RESOURCE_PATH_EXTENSION_URL, valueString := some (.vstr path) }])
    | none => p0
  if !truthyStr (ti.bind TypeInfo.name) && !truthyStr (ti.bind TypeInfo.type) then
    if isBoolV actualValue then p1.setField "valueBoolean" actualValue
    else if isNumV actualValue && !jsIsNaN actualValue then
      if jsIsInteger actualValue then p1.setField "valueInteger" actualValue
      else p1.setField "valueDecimal" actualValue
    else if isStrV actualValue then p1.setField "valueString" actualValue
    else assignByDataType p1 (strLower dataType) actualValue fullData resourcePath
  else assignByDataType p1 (strLower dataType) actualValue fullData resourcePath

/-! ## The trace collector and the evaluation orchestrator

`collectors` in the trace-collector module is a module-global stack of
frames; here it is threaded as explicit state (`Array.push`/`Array.pop`
work at the END of the list).  The engine (`@atomic-ehr/fhirpath`) enters as
an oracle parameter: it maps each `evaluate` call (expression, input,
variable scope — `modelProvider` and `includeMetadata: true` are fixed
across calls and left implicit) to the trace records the call emits through
`recordTrace` while running and to its outcome (`Except.error` models a
thrown exception).  A ghost log of the issued calls is threaded alongside
the stack so theorems can count engine invocations and inspect their
scopes; the log never influences control flow.  `TraceEntry.timestamp`
(wall clock) is outside the model. -/

structure TraceEntry where
  label : String
  values : List BoxedValue
deriving Repr

/-- `beginTraceCollection()`: `collectors.push([])`. -/
def beginTraceCollection (s : List (List TraceEntry)) : List (List TraceEntry) :=
  s ++ [[]]

/-- `endTraceCollection()`: `collectors.pop() ?? []`. -/
def endTraceCollection (s : List (List TraceEntry)) :
    List TraceEntry × List (List TraceEntry) :=
  ((s.getLast?).getD [], s.dropLast)

/-- `recordTrace`: append the entry to the innermost frame, or silently drop
it when no collection is active. -/
def recordTrace (e : TraceEntry) (s : List (List TraceEntry)) :
    List (List TraceEntry) :=
  match s.getLast? with
  | none => s
  | some f => s.dropLast ++ [f ++ [e]]

/-- One `evaluate` call as issued by the orchestrator. -/
structure EvalCall where
  expression : String
  input : Value
  vars : List (String × Option Value)

/-- The engine's behaviour on one call: the trace records it emits while
running, then its outcome. -/
structure EngineResp where
  emissions : List TraceEntry := []
  result : Except String (List BoxedValue)

abbrev Oracle := EvalCall → EngineResp

structure TraceState where
  collectors : List (List TraceEntry) := []
  calls : List EvalCall := []

/-- Replay the trace records one engine call emits through `recordTrace`. -/
def applyEmissions (es : List TraceEntry) (s : List (List TraceEntry)) :
    List (List TraceEntry) :=
  es.foldl (fun st e => recordTrace e st) s

/-- Run one engine `evaluate` call: its emissions hit the collector stack,
and the call is appended to the ghost log. -/
def engineEvaluate (o : Oracle) (c : EvalCall) (st : TraceState) :
    Except String (List BoxedValue) × TraceState :=
  ((o c).result,
    { collectors := applyEmissions (o c).emissions st.collectors,
      calls := st.calls ++ [c] })

/-- `unwrapBoxedValue`: a boxed item is an object with an own `value`
property, so the `hasOwnProperty` probe succeeds and the unwrap projects
the property. -/
def unwrapBoxedValue (item : BoxedValue) : Value := item.value

/-- ASCII whitespace trimming (`String.prototype.trim` on the ASCII
expressions this code labels with). -/
def strTrim (s : String) : String :=
  String.mk ((s.toList.dropWhile isJWs).reverse.dropWhile isJWs).reverse

/-- `resource.resourceType ?? 'Resource'`, for documents whose
`resourceType`, when present, is a string (the FHIR document shape). -/
def resourceTypeOf : Value → String
  | .vobj fs =>
    match alookup fs "resourceType" with
    | some (.vstr s) => s
    | _ => "Resource"
  | _ => "Resource"

/-- `deriveContextLabel`. -/
def deriveContextLabel (resource : Value) (contextExpression : Option String)
    (index : Nat) (contextItem : Option BoxedValue) : Option String :=
  if !truthyStr contextExpression then none
  else
    let modelPath := contextItem.bind fun b => b.typeInfo.bind TypeInfo.modelContextPath
    if truthyStr modelPath && (modelPath.getD "").length > 0 then
      if (modelPath.getD "").toList.contains '[' then modelPath
      else some ((modelPath.getD "") ++ "[" ++ toString index ++ "]")
    else
      let resourceType := resourceTypeOf resource
      let normalized := strTrim (contextExpression.getD "")
      if normalized == "" then some (resourceType ++ "[" ++ toString index ++ "]")
      else some (resourceType ++ "." ++ normalized ++ "[" ++ toString index ++ "]")

/-- One entry of the per-context result set. -/
structure ContextEntry where
  index : Nat
  contextValue : Value
  contextLabel : Option String := none
  expressionResult : List BoxedValue
  traces : List TraceEntry

/-- What `runEvaluation` resolves to (`analysis`, a pure metadata query that
only feeds the diagnostic response sections, is not modelled). -/
structure RunResult where
  contexts : List ContextEntry
  vars : List (String × Option Value)

/-- One iteration of the per-context loop: begin a frame, evaluate with
`context` rebound to the unwrapped item, and end the frame on the normal
path and on the throwing path alike (the `catch` pops, then re-raises). -/
def evalOneContext (o : Oracle) (expr : String)
    (base : List (String × Option Value)) (resource : Value)
    (ctxExpr : String) (index : Nat) (contextItem : BoxedValue)
    (st : TraceState) : Except String ContextEntry × TraceState :=
  let contextValue := unwrapBoxedValue contextItem
  let st1 := { st with collectors := beginTraceCollection st.collectors }
  let call : EvalCall :=
    { expression := expr, input := contextValue,
      vars := assocSetOpt base "context" (some contextValue) }
  match engineEvaluate o call st1 with
  | (.ok expressionResult, st2) =>
    let fin := endTraceCollection st2.collectors
    (.ok { index, contextValue,
           contextLabel := deriveContextLabel resource (some ctxExpr) index (some contextItem),
           expressionResult, traces := fin.1 },
      { st2 with collectors := fin.2 })
  | (.error e, st2) =>
    let fin := endTraceCollection st2.collectors
    (.error e, { st2 with collectors := fin.2 })

/-- The `for (const [index, contextItem] of contextItems.entries())` loop; a
thrown evaluation propagates out of the loop. -/
def evalContextsLoop (o : Oracle) (expr : String)
    (base : List (String × Option Value)) (resource : Value) (ctxExpr : String)
    (items : List BoxedValue) (index : Nat) (st : TraceState) :
    Except String (List ContextEntry) × TraceState :=
  match items with
  | [] => (.ok [], st)
  | item :: rest =>
    match evalOneContext o expr base resource ctxExpr index item st with
    | (.ok entry, st1) =>
      match evalContextsLoop o expr base resource ctxExpr rest (index + 1) st1 with
      | (.ok entries, st2) => (.ok (entry :: entries), st2)
      | (.error e, st2) => (.error e, st2)
    | (.error e, st1) => (.error e, st1)

/-- `runEvaluation`.  The non-null assertions `extraction.resource!` /
`extraction.expression!` hold after `validateExtraction` and are rendered
with `Option.getD`. -/
def runEvaluation (o : Oracle) (extraction : EvaluationParameterExtraction)
    (st : TraceState) : Except String RunResult × TraceState :=
  let userVariables := extractVariables extraction.variableParts
  let resource := extraction.resource.getD .vnull
  let baseVariableSet :=
    assocSetOpt (assocSetOpt userVariables "resource" (some resource))
      "rootResource" (some resource)
  if truthyStr extraction.contextExpression then
    let ctxExpr := extraction.contextExpression.getD ""
    let call : EvalCall :=
      { expression := ctxExpr, input := resource,
        vars := assocSetOpt baseVariableSet "context" (some resource) }
    match engineEvaluate o call st with
    | (.ok contextItems, st1) =>
      match evalContextsLoop o (extraction.expression.getD "") baseVariableSet
          resource ctxExpr contextItems 0 st1 with
      | (.ok contexts, st2) => (.ok { contexts, vars := userVariables }, st2)
      | (.error e, st2) => (.error e, st2)
    | (.error e, st1) => (.error e, st1)
  else
    let st1 := { st with collectors := beginTraceCollection st.collectors }
    let call : EvalCall :=
      { expression := extraction.expression.getD "", input := resource,
        vars := assocSetOpt baseVariableSet "context" (some resource) }
    match engineEvaluate o call st1 with
    | (.ok expressionResult, st2) =>
      let fin := endTraceCollection st2.collectors
      let entry : ContextEntry :=
        { index := 0, contextValue := resource, contextLabel := none,
          expressionResult, traces := fin.1 }
      (.ok { contexts := [entry], vars := userVariables },
        { st2 with collectors := fin.2 })
    | (.error e, st2) =>
      let fin := endTraceCollection st2.collectors
      (.error e, { st2 with collectors := fin.2 })

/-! ## The per-context result sections of `buildResponseParameters`

Only the portion that appends `result` parameters is embedded; the echo
section, the parse-debug tree and the diagnostics sections are disjoint
from the claims about the result set. -/

/-- The `typeof`-based tail of `getResultPartName`. -/
def valuePartName : Value → String
  | .varr _ => "collection"
  | .vnull => "null"
  | .vbool _ => "boolean"
  | .vnum _ => "number"
  | .vnan => "number"
  | .vstr _ => "string"
  | .vobj _ => "object"

/-- `getResultPartName`. -/
def getResultPartName (item : BoxedValue) : String :=
  match item.typeInfo with
  | some ti =>
    if truthyStr ti.name then strLower ((ti.name).getD "")
    else if truthyStr ti.type then strLower ((ti.type).getD "")
    else valuePartName item.value
  | none => valuePartName item.value

/-- `createResultValuePart`: name the part, encode the value with
`fullData = true`, and restore the name if the encoder blanked it. -/
def createResultValuePart (item : BoxedValue) : Param :=
  let part := setParameterValue (Param.mk (getResultPartName item) [] none none none) item true
  if part.name == "" then part.withName (getResultPartName item) else part

/-- `createTracePart`. -/
def createTracePart (trace : TraceEntry) : Param :=
  Param.mk "trace" [("valueString", .vstr trace.label)] none none
    (some (trace.values.map createResultValuePart))

/-- One `result` parameter for one context entry. -/
def resultSection (ctx : ContextEntry) : Param :=
  let fields :=
    if truthyStr ctx.contextLabel then [("valueString", Value.vstr (ctx.contextLabel.getD ""))]
    else []
  let valueParts :=
    ctx.expressionResult.map createResultValuePart ++
      (if ctx.traces.length > 0 then ctx.traces.map createTracePart else [])
  Param.mk "result" fields none none (some valueParts)

/-- The `result` parameters `buildResponseParameters` appends: one per
context entry, or a single empty section when there are none. -/
def resultSections (contexts : List ContextEntry) : List Param :=
  if contexts.length > 0 then contexts.map resultSection
  else [Param.mk "result" [] none none (some [])]

/-! ## The hooked `trace` function

`setupTraceHook` replaces the registry's `trace` evaluator.  The argument
nodes are opaque (`α`), as is the evaluation context (`γ`); `evalArg` is the
engine's sub-evaluator for argument nodes (its `Except.error` models a
thrown error, as do the hook's own `Errors.*` throws, rendered by name).
An argument slot holds `none` when the JS argument is falsy (`!args[0]`,
`args[1]` guards).  The hook's `recordTrace` side effects are returned as
an emission list; console logging (`shouldTrace`) is outside the model. -/

/-- `extractString` on a boxed item: the boxed object carries an own
`value` property, kept when it is a string.  (The raw-string branch for
unboxed engine values cannot apply to a boxed item.) -/
def extractString (boxed : BoxedValue) : Option String :=
  match boxed.value with
  | .vstr s => some s
  | _ => none

/-- The hooked `trace` evaluator. -/
def traceHook {γ α : Type} (input : List BoxedValue) (context : γ)
    (args : List (Option α))
    (evalArg : α → List BoxedValue → γ → Except String (List BoxedValue)) :
    Except String ((List BoxedValue × γ) × List TraceEntry) :=
  if args.length == 0 then
    .ok ((input, context), [{ label := "(unnamed)", values := input }])
  else if args.length > 2 then
    .error "wrongArgumentCountRange"
  else
    match args.head? with
    | none => .error "argumentRequired"
    | some none => .error "argumentRequired"
    | some (some a0) =>
      match evalArg a0 input context with
      | .error e => .error e
      | .ok nameValues =>
        match nameValues with
        | [boxedName] =>
          let name := extractString boxedName
          if !truthyStr name then .error "invalidStringOperation"
          else
            match (if args.length == 2 then args.getD 1 none else none) with
            | some a1 =>
              match evalArg a1 input context with
              | .error e => .error e
              | .ok projectionValues =>
                .ok ((input, context), [{ label := name.getD "", values := projectionValues }])
            | none =>
              .ok ((input, context), [{ label := name.getD "", values := input }])
        | _ => .error "singletonRequired"

/-! ## Helper lemmas -/

theorem alookup_aset_self (fs : List (String × Value)) (k : String) (v : Value) :
    alookup (aset fs k v) k = some v := by
  unfold aset
  by_cases hany : fs.any (fun kv => kv.1 == k) = true
  · rw [if_pos hany]
    induction fs with
    | nil => simp at hany
    | cons kv rest ih =>
      by_cases hk : (kv.1 == k) = true
      · have hk2 : kv.1 = k := by simpa using hk
        simp [alookup, List.find?_cons, hk, hk2]
      · simp only [List.any_cons, hk, Bool.false_or] at hany
        simp only [List.map_cons, if_neg hk]
        simpa [alookup, List.find?_cons, hk] using ih hany
  · rw [if_neg hany]
    have hnone : fs.find? (fun kv => kv.1 == k) = none := by
      rw [List.find?_eq_none]
      intro kv hmem hkv
      exact hany (List.any_eq_true.mpr ⟨kv, hmem, hkv⟩)
    simp [alookup, List.find?_append, hnone]

/-- The chain of JS `||` picks on lookups equals the first truthy value among
the present fields, with a final fallback. -/
theorem jsOrV_chain_eq (f : List (String × Value)) (o : Option Value) (ks : List String) :
    ks.foldr (fun k acc => jsOrV (alookup f k) acc) o =
      (match (ks.filterMap (fun k => alookup f k)).find? truthy with
       | some v => some v
       | none => o) := by
  induction ks with
  | nil => rfl
  | cons k ks ih =>
    simp only [List.foldr_cons, ih, List.filterMap_cons]
    cases h : alookup f k with
    | none => simp [jsOrV, truthyOpt]
    | some v =>
      cases ht : truthy v with
      | true => simp [jsOrV, truthyOpt, ht, List.find?_cons]
      | false => simp [jsOrV, truthyOpt, ht, List.find?_cons]

/-! ## C8: binding value selection -/

/-- The scalar fields probed by the binding-value chain, in source order. -/
def bindingPriorityKeys : List String :=
  ["valueString", "valueBoolean", "valueInteger", "valueDecimal", "valueDate",
   "valueTime", "valueDateTime"]

/-- The amended spec-side selection rule: the first present-AND-truthy value
among the scalar fields in priority order, else the embedded document. -/
def specFirstTruthy (p : Param) : Option Value :=
  match (bindingPriorityKeys.filterMap (fun k => alookup p.fields k)).find? truthy with
  | some v => some v
  | none => p.resource

/-- C8 counterexample: a present-but-false `valueBoolean` is NOT selected over
a later `valueInteger` — JS `||` skips falsy operands, so the binding is 5,
not `false` as the spec's first-non-absent rule would have it. -/
theorem C8_counterexample :
    bindingValue (Param.mk "v"
        [("valueBoolean", Value.vbool false), ("valueInteger", Value.vnum 5)]
        none none none)
      = some (Value.vnum 5)
  ∧ some (Value.vnum 5) ≠ some (Value.vbool false) :=
  ⟨rfl, by simp⟩

/-- C8 (amended): the binding value is the first present-and-truthy value
among `valueString`, `valueBoolean`, `valueInteger`, `valueDecimal`,
`valueDate`, `valueTime`, `valueDateTime` in that order (falsy present
values are skipped), falling back to the embedded document. -/
theorem C8_amended (p : Param) : bindingValue p = specFirstTruthy p := by
  have h := jsOrV_chain_eq p.fields p.resource bindingPriorityKeys
  calc bindingValue p
      = bindingPriorityKeys.foldr (fun k acc => jsOrV (alookup p.fields k) acc) p.resource := rfl
    _ = specFirstTruthy p := by rw [h]; rfl

/-! ## C5: structural inference of the wire field -/

/-- C5: the spec's structural inference says an untyped boolean is assigned
to `valueBoolean` and an untyped string to `valueString`; in `src/utils.ts`
the guard `!Number.isNaN(value)` is true for booleans and strings alike (no
coercion), so both land in `valueDecimal`; the sibling `utils.ts` copy
(`setParameterValue2`) implements the spec's inference. -/
theorem C5_structural_divergence :
    alookup ((setParameterValue (Param.mk "p" [] none none none)
        { value := Value.vbool true, typeInfo := none } true).fields) "valueBoolean" = none
  ∧ alookup ((setParameterValue (Param.mk "p" [] none none none)
        { value := Value.vbool true, typeInfo := none } true).fields) "valueDecimal"
      = some (Value.vbool true)
  ∧ alookup ((setParameterValue (Param.mk "p" [] none none none)
        { value := Value.vstr "abc", typeInfo := none } true).fields) "valueString" = none
  ∧ alookup ((setParameterValue (Param.mk "p" [] none none none)
        { value := Value.vstr "abc", typeInfo := none } true).fields) "valueDecimal"
      = some (Value.vstr "abc")
  ∧ alookup ((setParameterValue2 (Param.mk "p" [] none none none)
        { value := Value.vbool true, typeInfo := none } true).fields) "valueBoolean"
      = some (Value.vbool true)
  ∧ alookup ((setParameterValue2 (Param.mk "p" [] none none none)
        { value := Value.vstr "abc", typeInfo := none } true).fields) "valueString"
      = some (Value.vstr "abc") :=
  ⟨rfl, rfl, rfl, rfl, rfl, rfl⟩

/-! ## C9: variable-name escapes -/

/-- C9 counterexample: the regex alternative `u\d{4}` accepts only DECIMAL
digit escapes, so `ÿ` (hex digits `f`) is not a unicode escape: the dot
alternative eats just the `u`, leaving `u00ff`, not the code point U+00FF. -/
theorem C9_counterexample :
    normalizeVarName "`v\\u00ff`" = "vu00ff"
  ∧ normalizeVarName "`v\\u00ff`" ≠ "vÿ" := by
  refine ⟨rfl, ?_⟩
  intro h
  rw [show normalizeVarName "`v\\u00ff`" = "vu00ff" from rfl] at h
  simp at h

/-- C9 (amended): a backtick-wrapped name is unwrapped and unescaped (when
the unescaped body is not also quote-wrapped); a `\uDDDD` escape with
exactly four DECIMAL digits maps to the code point obtained by reading the
digits as hexadecimal (`Number('0x' + digits)`), the two-character escapes
`\r`, `\n`, `\t`, `\f` map to their control characters, and any other
backslash-prefixed character that is not a line terminator passes through
literally (hex digits `a`-`f` are not accepted in `\u` escapes); a
backslash followed by a line terminator (LF, CR, U+2028, U+2029) is not
matched by the regex dot, so both characters are kept. -/
theorem C9_amended (cs rest : List Char) (c d1 d2 d3 d4 : Char) (n : Nat)
    (hq : ¬((unescapeVarChars cs).head? = some '\'' ∧
            (unescapeVarChars cs).getLast? = some '\''))
    (hdig : (isDig d1 && isDig d2 && isDig d3 && isDig d4) = true)
    (hn : hexQuad d1 d2 d3 d4 = some n)
    (hu : c ≠ 'u') (hr : c ≠ 'r') (hnn : c ≠ 'n') (ht : c ≠ 't') (hf : c ≠ 'f')
    (hterm : isLineTerm c = false) :
    normalizeVarName (String.mk ('`' :: (cs ++ ['`']))) = String.mk (unescapeVarChars cs)
  ∧ unescapeVarChars ('\\' :: 'u' :: d1 :: d2 :: d3 :: d4 :: rest) =
      Char.ofNat n :: unescapeVarChars rest
  ∧ unescapeVarChars ('\\' :: 'r' :: rest) = '\r' :: unescapeVarChars rest
  ∧ unescapeVarChars ('\\' :: 'n' :: rest) = '\n' :: unescapeVarChars rest
  ∧ unescapeVarChars ('\\' :: 't' :: rest) = '\t' :: unescapeVarChars rest
  ∧ unescapeVarChars ('\\' :: 'f' :: rest) = '\x0c' :: unescapeVarChars rest
  ∧ unescapeVarChars ('\\' :: c :: rest) = c :: unescapeVarChars rest
  ∧ (∀ lt : Char, isLineTerm lt = true →
      unescapeVarChars ('\\' :: lt :: rest) = '\\' :: lt :: unescapeVarChars rest) := by
  obtain ⟨h1, h2, h3, h4⟩ :
      isDig d1 = true ∧ isDig d2 = true ∧ isDig d3 = true ∧ isDig d4 = true := by
    simp only [Bool.and_eq_true] at hdig
    exact ⟨hdig.1.1.1, hdig.1.1.2, hdig.1.2, hdig.2⟩
  refine ⟨?_, ?_, rfl, rfl, rfl, rfl, ?_, ?_⟩
  · have hin : unwrapIf '`' (String.mk ('`' :: (cs ++ ['`']))) =
        String.mk (unescapeVarChars cs) := by
      unfold unwrapIf
      rw [if_pos ⟨rfl, List.getLast?_concat ('`' :: cs)⟩]
      show String.mk (unescapeVarChars ((cs ++ ['`']).dropLast)) = _
      rw [List.dropLast_concat]
    unfold normalizeVarName
    rw [hin]
    unfold unwrapIf
    show (if ((unescapeVarChars cs).head? = some '\'' ∧
          (unescapeVarChars cs).getLast? = some '\'')
        then String.mk (unescapeVarChars (List.drop 1 (unescapeVarChars cs)).dropLast)
        else String.mk (unescapeVarChars cs)) = String.mk (unescapeVarChars cs)
    rw [if_neg hq]
  · have e1 : hexDigitVal d1 = some (d1.toNat - 48) := by
      unfold isDig at h1; simp [hexDigitVal, h1]
    have e2 : hexDigitVal d2 = some (d2.toNat - 48) := by
      unfold isDig at h2; simp [hexDigitVal, h2]
    have e3 : hexDigitVal d3 = some (d3.toNat - 48) := by
      unfold isDig at h3; simp [hexDigitVal, h3]
    have e4 : hexDigitVal d4 = some (d4.toNat - 48) := by
      unfold isDig at h4; simp [hexDigitVal, h4]
    rw [hexQuad, e1, e2, e3, e4] at hn
    simp only [Option.bind_eq_bind, Option.some_bind, Option.pure_def,
      Option.some.injEq] at hn
    subst hn
    rw [unescapeVarChars]
    rw [if_pos (by simp [h1, h2, h3, h4])]
  · rw [unescapeVarChars.eq_def]
    split <;> simp_all
    rename_i hpat hsingle heq
    exact absurd heq.2.symm (hpat c rest heq.1.symm)
  · intro lt hlt
    have h4c : lt = '\n' ∨ lt = '\r' ∨ lt = '\u2028' ∨ lt = '\u2029' := by
      simpa [isLineTerm, or_assoc] using hlt
    rcases h4c with rfl | rfl | rfl | rfl <;> rfl

/-- C9 witness at a concrete name, escapes, and a literal line feed. -/
theorem C9_witness :
    normalizeVarName (String.mk ('`' :: (['a'] ++ ['`']))) = String.mk (unescapeVarChars ['a'])
  ∧ unescapeVarChars ('\\' :: 'u' :: '0' :: '0' :: '4' :: '1' :: []) =
      Char.ofNat 65 :: unescapeVarChars []
  ∧ unescapeVarChars ('\\' :: 'r' :: []) = '\r' :: unescapeVarChars []
  ∧ unescapeVarChars ('\\' :: 'n' :: []) = '\n' :: unescapeVarChars []
  ∧ unescapeVarChars ('\\' :: 't' :: []) = '\t' :: unescapeVarChars []
  ∧ unescapeVarChars ('\\' :: 'f' :: []) = '\x0c' :: unescapeVarChars []
  ∧ unescapeVarChars ('\\' :: 'x' :: []) = 'x' :: unescapeVarChars []
  ∧ (∀ lt : Char, isLineTerm lt = true →
      unescapeVarChars ('\\' :: lt :: []) = '\\' :: lt :: unescapeVarChars []) :=
  C9_amended ['a'] [] 'x' '0' '0' '4' '1' 65 (by decide) (by decide) (by decide)
    (by decide) (by decide) (by decide) (by decide) (by decide) (by decide)

/-! ## C6: the additional-inputs ledger -/

/-- The four parameter names whose switch cases do NOT push to
`additionalInputs` (they are consumed into dedicated extraction fields). -/
def isConsumedName (n : String) : Bool :=
  n == "expression" || n == "context" || n == "resource" || n == "variables"

/-- Lookup of one name's group in the additional-inputs ledger. -/
def groupLookup (ai : List (String × List Param)) (n : String) : Option (List Param) :=
  (ai.find? (fun kv => kv.1 == n)).map (fun kv => kv.2)

theorem extractStep_additionalInputs (acc : EvaluationParameterExtraction) (p : Param) :
    (extractStep acc p).additionalInputs =
      (if isConsumedName p.name then acc.additionalInputs
       else pushAdditionalInput acc.additionalInputs p.name p) := by
  unfold extractStep isConsumedName
  split_ifs with h1 h2 h3 h4 h5 h6 h7 <;> simp_all

theorem foldl_extractStep_additionalInputs (ps : List Param) :
    ∀ acc : EvaluationParameterExtraction,
      (ps.foldl extractStep acc).additionalInputs =
        ps.foldl (fun ai p => if isConsumedName p.name then ai
          else pushAdditionalInput ai p.name p) acc.additionalInputs := by
  induction ps with
  | nil => intro acc; rfl
  | cons p ps ih =>
    intro acc
    simp only [List.foldl_cons, ih, extractStep_additionalInputs]

theorem beq_string_symm_false {a b : String} (h : (a == b) = false) : (b == a) = false := by
  cases hx : b == a
  · rfl
  · have hba : b = a := by simpa using hx
    subst hba
    simp at h

theorem groupLookup_push_self (ai : List (String × List Param)) (n : String) (p : Param) :
    groupLookup (pushAdditionalInput ai n p) n =
      some ((groupLookup ai n).getD [] ++ [p]) := by
  unfold pushAdditionalInput
  by_cases hany : ai.any (fun kv => kv.1 == n) = true
  · rw [if_pos hany]
    induction ai with
    | nil => simp at hany
    | cons kv rest ih =>
      by_cases hk : (kv.1 == n) = true
      · have hk2 : kv.1 = n := by simpa using hk
        simp [groupLookup, List.find?_cons, hk, hk2]
      · simp only [List.any_cons, hk, Bool.false_or] at hany
        simp only [List.map_cons, if_neg hk]
        simpa [groupLookup, List.find?_cons, hk] using ih hany
  · rw [if_neg hany]
    have hnone : ai.find? (fun kv => kv.1 == n) = none := by
      rw [List.find?_eq_none]
      intro kv hmem hkv
      exact hany (List.any_eq_true.mpr ⟨kv, hmem, hkv⟩)
    simp [groupLookup, List.find?_append, hnone]

theorem groupLookup_push_other (ai : List (String × List Param)) (n n2 : String)
    (p : Param) (h : (n2 == n) = false) :
    groupLookup (pushAdditionalInput ai n p) n2 = groupLookup ai n2 := by
  unfold pushAdditionalInput groupLookup
  by_cases hany : ai.any (fun kv => kv.1 == n) = true
  · rw [if_pos hany, List.find?_map]
    have hcomp : ((fun kv => kv.1 == n2) ∘
        (fun (kv : String × List Param) => if (kv.1 == n) = true then (kv.1, kv.2 ++ [p]) else kv))
          = (fun (kv : String × List Param) => kv.1 == n2) := by
      funext kv
      by_cases hk : kv.1 = n <;> simp [hk]
    rw [hcomp]
    cases hfind : ai.find? (fun kv => kv.1 == n2) with
    | none => rfl
    | some kv0 =>
      have hp : (kv0.1 == n2) = true := by
        have h3 := List.find?_some hfind
        simpa using h3
      have hk0 : kv0.1 = n2 := by simpa using hp
      have hne : ¬ kv0.1 = n := by rw [hk0]; simpa using h
      simp [hne]
  · rw [if_neg hany, List.find?_append]
    cases hfind : ai.find? (fun kv => kv.1 == n2) with
    | some kv0 => simp
    | none =>
      have hsym : (n == n2) = false := beq_string_symm_false h
      simp [List.find?_cons, hsym]

theorem groupLookup_foldPush (n : String) (ps : List Param) :
    ∀ ai : List (String × List Param),
      groupLookup (ps.foldl (fun ai p => if isConsumedName p.name then ai
        else pushAdditionalInput ai p.name p) ai) n =
      (match groupLookup ai n with
       | some g => some (g ++ ps.filter (fun p => !isConsumedName p.name && (p.name == n)))
       | none =>
         if (ps.filter (fun p => !isConsumedName p.name && (p.name == n))).isEmpty then none
         else some (ps.filter (fun p => !isConsumedName p.name && (p.name == n)))) := by
  induction ps with
  | nil =>
    intro ai
    cases h : groupLookup ai n <;> simp [h]
  | cons p ps ih =>
    intro ai
    simp only [List.foldl_cons, List.filter_cons]
    by_cases hc : isConsumedName p.name = true
    · have hpred : (!isConsumedName p.name && (p.name == n)) = false := by simp [hc]
      rw [if_pos hc, hpred]
      simp only [Bool.false_eq_true, if_false]
      exact ih ai
    · have hnc : (!isConsumedName p.name) = true := by simp [hc]
      rw [if_neg hc]
      by_cases hn : (p.name == n) = true
      · have hn2 : p.name = n := by simpa using hn
        have hpred : (!isConsumedName p.name && (p.name == n)) = true := by
          simp [hnc, hn]
        rw [hpred]
        simp only [if_true]
        rw [ih (pushAdditionalInput ai p.name p), hn2, groupLookup_push_self]
        cases hai : groupLookup ai n with
        | none => simp
        | some g => simp
      · have hpred : (!isConsumedName p.name && (p.name == n)) = false := by simp [hn]
        rw [hpred]
        simp only [Bool.false_eq_true, if_false]
        have hnf : (p.name == n) = false := by
          cases hx : p.name == n
          · rfl
          · exact absurd hx hn
        rw [ih (pushAdditionalInput ai p.name p),
          groupLookup_push_other ai p.name n p (beq_string_symm_false hnf)]

/-- C6 counterexample: a parameter named `expression` is NOT appended to
`additionalInputs` — its switch case consumes it without pushing, so the
ledger stays empty; the spec's "every parameter, regardless of whether it
was specially recognized" fails for `expression`, `context`, `resource`
and `variables`. -/
theorem C6_counterexample :
    (extractEvaluationParameters (some [Param.mk "expression"
        [("valueString", Value.vstr "Patient.name")] none none none])).additionalInputs
      = [] := rfl

/-- C6 (amended): extraction appends every parameter whose name is NOT one
of the four consumed names (`expression`, `context`, `resource`,
`variables`) to `additionalInputs` keyed by its name; each name's group
lists exactly those parameters in encounter order (and a name with no such
parameter has no group). -/
theorem C6_amended (ps : List Param) (n : String) :
    groupLookup (extractEvaluationParameters (some ps)).additionalInputs n =
      (if (ps.filter (fun p => !isConsumedName p.name && (p.name == n))).isEmpty then none
       else some (ps.filter (fun p => !isConsumedName p.name && (p.name == n)))) := by
  show groupLookup ((ps.foldl extractStep {}).additionalInputs) n = _
  rw [foldl_extractStep_additionalInputs, groupLookup_foldPush]
  rfl

/-! ## C4: encoder round-trip -/

/-- The switch's scalar cases that store the value unchanged, with the wire
field each lowercased type name selects. -/
def plainScalarWireFields : List (String × String) :=
  [("humanname", "valueHumanName"), ("contactpoint", "valueContactPoint"),
   ("address", "valueAddress"), ("quantity", "valueQuantity"),
   ("age", "valueAge"), ("count", "valueCount"),
   ("distance", "valueDistance"), ("duration", "valueDuration"),
   ("money", "valueMoney"), ("codeableconcept", "valueCodeableConcept"),
   ("coding", "valueCoding"), ("identifier", "valueIdentifier"),
   ("period", "valuePeriod"), ("range", "valueRange"),
   ("ratio", "valueRatio"), ("reference", "valueReference"),
   ("attachment", "valueAttachment"), ("annotation", "valueAnnotation"),
   ("sampleddata", "valueSampledData"), ("signature", "valueSignature"),
   ("timing", "valueTiming"), ("contactdetail", "valueContactDetail"),
   ("contributor", "valueContributor"),
   ("datarequirement", "valueDataRequirement"),
   ("expression", "valueExpression"),
   ("parameterdefinition", "valueParameterDefinition"),
   ("relatedartifact", "valueRelatedArtifact"),
   ("triggerdefinition", "valueTriggerDefinition"),
   ("usagecontext", "valueUsageContext"), ("dosage", "valueDosage"),
   ("meta", "valueMeta"), ("string", "valueString"),
   ("system.string", "valueString"), ("boolean", "valueBoolean"),
   ("date", "valueDate"), ("datetime", "valueDateTime"),
   ("time", "valueTime"), ("instant", "valueInstant"), ("code", "valueCode"),
   ("base64binary", "valueBase64Binary"), ("canonical", "valueCanonical"),
   ("id", "valueId"), ("markdown", "valueMarkdown"), ("oid", "valueOid"),
   ("uri", "valueUri"), ("url", "valueUrl"), ("uuid", "valueUuid")]

/-- The switch's integer-family cases, which store `parseInt(value)`. -/
def intParsedWireFields : List (String × String) :=
  [("integer", "valueInteger"), ("positiveint", "valuePositiveInt"),
   ("unsignedint", "valueUnsignedInt")]

/-- Every lowercased type name the switch enumerates. -/
def recognizedTypeNames : List String :=
  ["humanname", "contactpoint", "address", "quantity", "age", "count",
   "distance", "duration", "money", "codeableconcept", "coding",
   "identifier", "period", "range", "ratio", "reference", "attachment",
   "annotation", "sampleddata", "signature", "timing", "contactdetail",
   "contributor", "datarequirement", "expression", "parameterdefinition",
   "relatedartifact", "triggerdefinition", "usagecontext", "dosage", "meta",
   "string", "system.string", "boolean", "date", "datetime", "time",
   "instant", "code", "base64binary", "canonical", "id", "markdown", "oid",
   "uri", "url", "uuid", "integer", "positiveint", "unsignedint", "decimal"]

theorem assign_plain_mem (p : Param) (dt fld : String) (v : Value) (rp : Option String)
    (fd : Bool) (h : (dt, fld) ∈ plainScalarWireFields) :
    alookup (assignByDataType p dt v fd rp).fields fld = some v := by
  fin_cases h
  all_goals exact alookup_aset_self p.fields _ v

theorem assign_int_mem (p : Param) (dt fld : String) (v : Value) (rp : Option String)
    (fd : Bool) (h : (dt, fld) ∈ intParsedWireFields) :
    alookup (assignByDataType p dt v fd rp).fields fld = some (jsParseInt v) := by
  fin_cases h
  all_goals exact alookup_aset_self p.fields _ (jsParseInt v)

theorem assign_decimal (p : Param) (v : Value) (rp : Option String) (fd : Bool) :
    alookup (assignByDataType p "decimal" v fd rp).fields "valueDecimal"
      = some (jsParseFloat v) :=
  alookup_aset_self p.fields "valueDecimal" (jsParseFloat v)

theorem assignByDataType_default (p : Param) (dt : String) (v : Value)
    (rp : Option String) (h : dt ∉ recognizedTypeNames) :
    assignByDataType p dt v true rp =
      p.pushExt { url := JSON_VALUE_EXTENSION_URL,
                  valueString := some (.vstr (stringifyPretty v)) } := by
  unfold assignByDataType
  split
  all_goals first
    | rfl
    | (exfalso; apply h; simp_all [recognizedTypeNames])

/-- C4 counterexample: `integer` is a recognized scalar type, but re-reading
`valueInteger` does not yield the original value — the encoder stores
`parseInt(value)`, which coerces the string `"7.9"` to the number 7. -/
theorem C4_counterexample :
    alookup ((setParameterValue (Param.mk "r" [] none none none)
        { value := Value.vstr "7.9", typeInfo := some { name := some "integer" } }
        true).fields) "valueInteger" = some (Value.vnum ((7 : Nat) : Rat))
  ∧ some (Value.vnum ((7 : Nat) : Rat)) ≠ some (Value.vstr "7.9") :=
  ⟨rfl, by simp⟩

/-- C4 (amended): for scalar types outside the `parseInt`/`parseFloat`
families, re-reading the wire field yields the original value; the
`integer`/`positiveInt`/`unsignedInt` fields hold `parseInt(value)` and
`decimal` holds `parseFloat(value)`; a type name outside the enumeration
makes the `fullData` encoder attach the fixed embedded-JSON annotation
whose string content is the 2-space-indented rendering of the value, and
parsing that string back yields a deep-equal value (shown on the
whole-number fragment, where JS double printing is exact). -/
theorem C4_amended (p : Param) (dt fld : String) (v : Value) (rp : Option String)
    (fd : Bool) :
    ((dt, fld) ∈ plainScalarWireFields →
      alookup (assignByDataType p dt v fd rp).fields fld = some v)
  ∧ ((dt, fld) ∈ intParsedWireFields →
      alookup (assignByDataType p dt v fd rp).fields fld = some (jsParseInt v))
  ∧ (dt = "decimal" →
      alookup (assignByDataType p dt v fd rp).fields "valueDecimal"
        = some (jsParseFloat v))
  ∧ (dt ∉ recognizedTypeNames →
      (assignByDataType p dt v true rp).extension =
        some ((p.extension.getD []) ++
          [{ url := JSON_VALUE_EXTENSION_URL,
             valueString := some (.vstr (stringifyPretty v)) }])
      ∧ (intsOnly v = true → jsonParse (stringifyPretty v) = some v)) := by
  refine ⟨fun h => assign_plain_mem p dt fld v rp fd h,
    fun h => assign_int_mem p dt fld v rp fd h,
    fun h => by subst h; exact assign_decimal p v rp fd,
    fun h => ⟨?_, fun hi => jsonParse_stringifyPretty v hi⟩⟩
  rw [assignByDataType_default p dt v rp h]
  rfl

/-- C4 witness at concrete types and values. -/
theorem C4_witness :
    alookup (assignByDataType (Param.mk "r" [] none none none) "string"
      (Value.vstr "x") true none).fields "valueString" = some (Value.vstr "x")
  ∧ alookup (assignByDataType (Param.mk "r" [] none none none) "integer"
      (Value.vstr "7.9") true none).fields "valueInteger"
      = some (jsParseInt (Value.vstr "7.9"))
  ∧ alookup (assignByDataType (Param.mk "r" [] none none none) "decimal"
      (Value.vnum 1) true none).fields "valueDecimal"
      = some (jsParseFloat (Value.vnum 1))
  ∧ ((assignByDataType (Param.mk "r" [] none none none) "patient"
        Value.vnull true none).extension =
      some (([] : List FhirExtension) ++
        [{ url := JSON_VALUE_EXTENSION_URL,
           valueString := some (.vstr (stringifyPretty Value.vnull)) }])
      ∧ jsonParse (stringifyPretty Value.vnull) = some Value.vnull) := by
  refine ⟨(C4_amended (Param.mk "r" [] none none none) "string" "valueString"
      (Value.vstr "x") none true).1 (by simp [plainScalarWireFields]),
    (C4_amended (Param.mk "r" [] none none none) "integer" "valueInteger"
      (Value.vstr "7.9") none true).2.1 (by simp [intParsedWireFields]),
    (C4_amended (Param.mk "r" [] none none none) "decimal" "f"
      (Value.vnum 1) none true).2.2.1 rfl, ?_⟩
  have h := (C4_amended (Param.mk "r" [] none none none) "patient" "f"
      Value.vnull none true).2.2.2 (by simp [recognizedTypeNames])
  exact ⟨h.1, h.2 (by rw [intsOnly])⟩

/-! ## Collector-stack lemmas -/

theorem recordTrace_length (e : TraceEntry) (s : List (List TraceEntry)) :
    (recordTrace e s).length = s.length := by
  unfold recordTrace
  cases h : s.getLast? with
  | none => rfl
  | some f =>
    have hne : s ≠ [] := by
      intro hnil
      subst hnil
      simp at h
    have hpos : 0 < s.length := List.length_pos.mpr hne
    simp only [List.length_append, List.length_dropLast, List.length_cons,
      List.length_nil]
    omega

theorem applyEmissions_length (es : List TraceEntry) :
    ∀ s : List (List TraceEntry), (applyEmissions es s).length = s.length := by
  induction es with
  | nil => intro s; rfl
  | cons e es ih =>
    intro s
    show (applyEmissions es (recordTrace e s)).length = s.length
    rw [ih, recordTrace_length]

theorem applyEmissions_nil_stack (es : List TraceEntry) :
    applyEmissions es [] = [] := by
  induction es with
  | nil => rfl
  | cons e es ih => exact ih

theorem recordTrace_concat (e : TraceEntry) (s : List (List TraceEntry))
    (f : List TraceEntry) :
    recordTrace e (s ++ [f]) = s ++ [f ++ [e]] := by
  unfold recordTrace
  rw [List.getLast?_concat]
  simp [List.dropLast_concat]

theorem applyEmissions_concat (es : List TraceEntry) :
    ∀ (s : List (List TraceEntry)) (f : List TraceEntry),
      applyEmissions es (s ++ [f]) = s ++ [f ++ es] := by
  induction es with
  | nil => intro s f; simp [applyEmissions]
  | cons e es ih =>
    intro s f
    show applyEmissions es (recordTrace e (s ++ [f])) = _
    rw [recordTrace_concat, ih]
    simp

/-- The begin/evaluate/end bracket restores the collector stack exactly. -/
theorem bracket_collectors (o : Oracle) (c : EvalCall) (st : TraceState) :
    (endTraceCollection
      (engineEvaluate o c { st with collectors := beginTraceCollection st.collectors }).2.collectors).2
      = st.collectors := by
  show (endTraceCollection (applyEmissions (o c).emissions (st.collectors ++ [[]]))).2
      = st.collectors
  rw [applyEmissions_concat]
  show (st.collectors ++ [[] ++ (o c).emissions]).dropLast = st.collectors
  rw [List.dropLast_concat]

/-- The bracket's returned frame is exactly what the call emitted. -/
theorem bracket_frame (o : Oracle) (c : EvalCall) (st : TraceState) :
    (endTraceCollection
      (engineEvaluate o c { st with collectors := beginTraceCollection st.collectors }).2.collectors).1
      = (o c).emissions := by
  show (endTraceCollection (applyEmissions (o c).emissions (st.collectors ++ [[]]))).1
      = (o c).emissions
  rw [applyEmissions_concat]
  show ((st.collectors ++ [[] ++ (o c).emissions]).getLast?).getD [] = (o c).emissions
  rw [List.getLast?_concat]
  rfl

theorem evalOneContext_collectors (o : Oracle) (expr : String)
    (base : List (String × Option Value)) (resource : Value) (ctxExpr : String)
    (i : Nat) (item : BoxedValue) (st : TraceState) :
    (evalOneContext o expr base resource ctxExpr i item st).2.collectors
      = st.collectors := by
  unfold evalOneContext
  dsimp only
  split
  · rename_i res st2 heq
    show (endTraceCollection st2.collectors).2 = st.collectors
    have h2 := congrArg Prod.snd heq
    dsimp only at h2
    rw [← h2]
    exact bracket_collectors o _ st
  · rename_i e st2 heq
    show (endTraceCollection st2.collectors).2 = st.collectors
    have h2 := congrArg Prod.snd heq
    dsimp only at h2
    rw [← h2]
    exact bracket_collectors o _ st

theorem evalContextsLoop_collectors (o : Oracle) (expr : String)
    (base : List (String × Option Value)) (resource : Value) (ctxExpr : String)
    (items : List BoxedValue) :
    ∀ (i : Nat) (st : TraceState),
      (evalContextsLoop o expr base resource ctxExpr items i st).2.collectors
        = st.collectors := by
  induction items with
  | nil => intro i st; rfl
  | cons item rest ih =>
    intro i st
    show (match evalOneContext o expr base resource ctxExpr i item st with
      | (.ok entry, st1) =>
        match evalContextsLoop o expr base resource ctxExpr rest (i + 1) st1 with
        | (.ok entries, st2) => (Except.ok (entry :: entries), st2)
        | (.error e, st2) => (Except.error e, st2)
      | (.error e, st1) => (Except.error e, st1)).2.collectors = st.collectors
    have h1 := evalOneContext_collectors o expr base resource ctxExpr i item st
    cases hoc : evalOneContext o expr base resource ctxExpr i item st with
    | mk r1 st1 =>
      rw [hoc] at h1
      cases r1 with
      | ok entry =>
        have h2 := ih (i + 1) st1
        cases hloop : evalContextsLoop o expr base resource ctxExpr rest (i + 1) st1 with
        | mk r2 st2 =>
          rw [hloop] at h2
          cases r2 <;> simp_all
      | error e => simp_all

theorem runEvaluation_collectors (o : Oracle) (ex : EvaluationParameterExtraction)
    (st : TraceState) :
    ∃ es : List TraceEntry,
      (runEvaluation o ex st).2.collectors = applyEmissions es st.collectors := by
  unfold runEvaluation
  dsimp only
  split
  · -- context-expression branch
    split
    · rename_i items st1 heq
      have h2 := congrArg (fun x => x.2.collectors) heq
      dsimp only [engineEvaluate] at h2
      split
      · rename_i contexts st2 heq2
        have h3 := congrArg Prod.snd heq2
        dsimp only at h3
        exact ⟨_, by
          show st2.collectors = _
          rw [← h3, evalContextsLoop_collectors]
          exact h2.symm⟩
      · rename_i e st2 heq2
        have h3 := congrArg Prod.snd heq2
        dsimp only at h3
        exact ⟨_, by
          show st2.collectors = _
          rw [← h3, evalContextsLoop_collectors]
          exact h2.symm⟩
    · rename_i e st1 heq
      have h2 := congrArg (fun x => x.2.collectors) heq
      dsimp only [engineEvaluate] at h2
      exact ⟨_, by
        show st1.collectors = _
        exact h2.symm⟩
  · -- single-evaluation branch: the bracket restores the stack exactly
    refine ⟨[], ?_⟩
    show _ = st.collectors
    split
    · rename_i res st2 heq
      have h2 := congrArg Prod.snd heq
      dsimp only at h2
      show (endTraceCollection st2.collectors).2 = st.collectors
      rw [← h2]
      exact bracket_collectors o _ st
    · rename_i e st2 heq
      have h2 := congrArg Prod.snd heq
      dsimp only at h2
      show (endTraceCollection st2.collectors).2 = st.collectors
      rw [← h2]
      exact bracket_collectors o _ st

/-- C3: every `beginTraceCollection` in `runEvaluation` is matched by exactly
one `endTraceCollection` on both the normal and the throwing path, so the
collector stack keeps its depth across a request, and a request entered with
the empty stack (the module state between requests) leaves it empty — no
stale frame survives into a later evaluation. -/
theorem C3_frame_balance (o : Oracle) (ex : EvaluationParameterExtraction)
    (st : TraceState) :
    (runEvaluation o ex st).2.collectors.length = st.collectors.length
  ∧ (st.collectors = [] → (runEvaluation o ex st).2.collectors = []) := by
  obtain ⟨es, hes⟩ := runEvaluation_collectors o ex st
  constructor
  · rw [hes, applyEmissions_length]
  · intro h0
    rw [hes, h0, applyEmissions_nil_stack]

/-- C3 witness: a concrete run (one context item, one trace emission) enters
and leaves with the empty collector stack. -/
theorem C3_witness :
    (runEvaluation
      (fun _ => { emissions := [{ label := "t", values := [] }],
                  result := .ok [{ value := Value.vnull, typeInfo := none }] })
      { expression := some "e", contextExpression := some "c",
        resource := some (Value.vobj []) }
      {}).2.collectors.length = ({} : TraceState).collectors.length
  ∧ (({} : TraceState).collectors = [] →
      (runEvaluation
        (fun _ => { emissions := [{ label := "t", values := [] }],
                    result := .ok [{ value := Value.vnull, typeInfo := none }] })
        { expression := some "e", contextExpression := some "c",
          resource := some (Value.vobj []) }
        {}).2.collectors = []) :=
  C3_frame_balance _ _ _

/-! ## Call-scope abbreviations for the orchestrator theorems -/

/-- `baseVariableSet` as `runEvaluation` builds it:
`{...userVariables, resource, rootResource: resource}`. -/
def baseScope (ex : EvaluationParameterExtraction) : List (String × Option Value) :=
  assocSetOpt
    (assocSetOpt (extractVariables ex.variableParts) "resource"
      (some (ex.resource.getD .vnull)))
    "rootResource" (some (ex.resource.getD .vnull))

/-- The `evaluate` call issued for the context expression. -/
def contextEvalCall (ex : EvaluationParameterExtraction) : EvalCall :=
  { expression := ex.contextExpression.getD "", input := ex.resource.getD .vnull,
    vars := assocSetOpt (baseScope ex) "context" (some (ex.resource.getD .vnull)) }

/-- The single `evaluate` call issued when no context expression is given. -/
def mainEvalCall (ex : EvaluationParameterExtraction) : EvalCall :=
  { expression := ex.expression.getD "", input := ex.resource.getD .vnull,
    vars := assocSetOpt (baseScope ex) "context" (some (ex.resource.getD .vnull)) }

theorem evalOneContext_ok_shape (o : Oracle) (expr : String)
    (base : List (String × Option Value)) (resource : Value) (ctxExpr : String)
    (i : Nat) (item : BoxedValue) (st : TraceState) (entry : ContextEntry)
    (st2 : TraceState)
    (h : evalOneContext o expr base resource ctxExpr i item st = (.ok entry, st2)) :
    entry.index = i ∧ entry.contextValue = unwrapBoxedValue item := by
  unfold evalOneContext at h
  dsimp only at h
  split at h
  · rename_i res stA heq
    simp only [Prod.mk.injEq, Except.ok.injEq] at h
    obtain ⟨h1, h2⟩ := h
    exact ⟨by rw [← h1], by rw [← h1]⟩
  · rename_i e stA heq
    simp at h

theorem evalContextsLoop_ok_shape (o : Oracle) (expr : String)
    (base : List (String × Option Value)) (resource : Value) (ctxExpr : String)
    (items : List BoxedValue) :
    ∀ (i : Nat) (st : TraceState) (es : List ContextEntry) (st2 : TraceState),
      evalContextsLoop o expr base resource ctxExpr items i st = (.ok es, st2) →
      es.map ContextEntry.index = List.range' i items.length
      ∧ es.map ContextEntry.contextValue = items.map unwrapBoxedValue
      ∧ es.length = items.length := by
  induction items with
  | nil =>
    intro i st es st2 h
    simp only [evalContextsLoop, Prod.mk.injEq, Except.ok.injEq] at h
    obtain ⟨h1, _⟩ := h
    subst h1
    simp
  | cons item rest ih =>
    intro i st es st2 h
    simp only [evalContextsLoop] at h
    cases hoc : evalOneContext o expr base resource ctxExpr i item st with
    | mk r1 stA =>
      rw [hoc] at h
      cases r1 with
      | error e => simp at h
      | ok entry =>
        dsimp only at h
        cases hloop : evalContextsLoop o expr base resource ctxExpr rest (i + 1) stA with
        | mk r2 stB =>
          rw [hloop] at h
          cases r2 with
          | error e => simp at h
          | ok entries =>
            dsimp only at h
            simp only [Prod.mk.injEq, Except.ok.injEq] at h
            obtain ⟨h1, h2⟩ := h
            subst h1
            obtain ⟨hidx, hval⟩ :=
              evalOneContext_ok_shape o expr base resource ctxExpr i item st entry stA hoc
            obtain ⟨hi, hv, hl⟩ := ih (i + 1) stA entries stB hloop
            refine ⟨?_, ?_, ?_⟩
            · simp [List.range'_succ, hidx, hi]
            · simp [hval, hv]
            · simp [hl]

/-- C1: whenever a run with a (truthy) context expression resolves, the
engine's answer to the context call is an ordered item list, and the result
set has exactly one entry per item, indexed 0..N-1 in order, carrying the
unwrapped context values in the same order. -/
theorem C1_context_fanout (o : Oracle) (ex : EvaluationParameterExtraction)
    (st : TraceState) (res : RunResult)
    (hctx : truthyStr ex.contextExpression = true)
    (h : (runEvaluation o ex st).1 = .ok res) :
    ∃ items : List BoxedValue,
      (o (contextEvalCall ex)).result = .ok items
      ∧ res.contexts.length = items.length
      ∧ res.contexts.map ContextEntry.index = List.range items.length
      ∧ res.contexts.map ContextEntry.contextValue = items.map unwrapBoxedValue := by
  unfold runEvaluation at h
  dsimp only at h
  rw [if_pos hctx] at h
  split at h
  · rename_i items st1 heq
    split at h
    · rename_i contexts st2 heq2
      dsimp only at h
      simp only [Except.ok.injEq] at h
      obtain ⟨hi, hv, hl⟩ := evalContextsLoop_ok_shape o _ _ _ _ items 0 st1
        contexts st2 heq2
      have hr := congrArg Prod.fst heq
      dsimp only [engineEvaluate] at hr
      refine ⟨items, hr, ?_, ?_, ?_⟩
      · rw [← h]
        exact hl
      · rw [← h]
        rw [hi, List.range_eq_range']
      · rw [← h]
        exact hv
    · rename_i e st2 heq2
      dsimp only at h
      simp at h
  · rename_i e st1 heq
    dsimp only at h
    simp at h

/-- A stub engine: no emissions, one null boxed item for every call. -/
def oracleOneItem : Oracle :=
  fun _ =>
    { emissions := [],
      result := .ok [{ value := Value.vnull, typeInfo := none }] }

/-- A concrete extraction with a context expression. -/
def exWithContext : EvaluationParameterExtraction :=
  { expression := some "e", contextExpression := some "c",
    resource := some (Value.vobj []) }

/-- The run result `oracleOneItem` produces on `exWithContext`. -/
def oneEntryRun : RunResult :=
  { contexts :=
      [{ index := 0, contextValue := Value.vnull,
         contextLabel := some "Resource.c[0]",
         expressionResult := [{ value := Value.vnull, typeInfo := none }],
         traces := [] }],
    vars := [] }

/-- C1 witness: one context item produces one entry of index 0. -/
theorem C1_witness :
    ∃ items : List BoxedValue,
      (oracleOneItem (contextEvalCall exWithContext)).result = .ok items
      ∧ oneEntryRun.contexts.length = items.length
      ∧ oneEntryRun.contexts.map ContextEntry.index = List.range items.length
      ∧ oneEntryRun.contexts.map ContextEntry.contextValue
          = items.map unwrapBoxedValue :=
  C1_context_fanout oracleOneItem exWithContext {} oneEntryRun rfl rfl

theorem runEvaluation_nocontext (o : Oracle) (ex : EvaluationParameterExtraction)
    (st : TraceState) (hctx : truthyStr ex.contextExpression = false) :
    (runEvaluation o ex st).2.calls = st.calls ++ [mainEvalCall ex]
  ∧ (∀ res, (runEvaluation o ex st).1 = .ok res →
      res.contexts.map ContextEntry.index = [0]
      ∧ res.contexts.map ContextEntry.contextLabel = [none]
      ∧ res.contexts.map ContextEntry.contextValue = [ex.resource.getD .vnull]) := by
  unfold runEvaluation
  dsimp only
  rw [if_neg (by simp [hctx])]
  constructor
  · split
    · rename_i res st2 heq
      show st2.calls = _
      have h2 := congrArg (fun x => x.2.calls) heq
      dsimp only [engineEvaluate] at h2
      rw [← h2]
      rfl
    · rename_i e st2 heq
      show st2.calls = _
      have h2 := congrArg (fun x => x.2.calls) heq
      dsimp only [engineEvaluate] at h2
      rw [← h2]
      rfl
  · intro res hres
    split at hres
    · rename_i r st2 heq
      dsimp only at hres
      simp only [Except.ok.injEq] at hres
      subst hres
      exact ⟨rfl, rfl, rfl⟩
    · rename_i e st2 heq
      dsimp only at hres
      simp at hres

/-- C2: with no (truthy) context expression, the orchestrator issues exactly
one engine call — the main expression against the document with scope
`base ∪ {context: document}` — and on success the result set is a single
entry of index 0, no label, whose context value is the document. -/
theorem C2_single_evaluation (o : Oracle) (ex : EvaluationParameterExtraction)
    (st : TraceState) (hctx : truthyStr ex.contextExpression = false) :
    (runEvaluation o ex st).2.calls = st.calls ++ [mainEvalCall ex]
  ∧ (∀ res, (runEvaluation o ex st).1 = .ok res →
      res.contexts.map ContextEntry.index = [0]
      ∧ res.contexts.map ContextEntry.contextLabel = [none]
      ∧ res.contexts.map ContextEntry.contextValue = [ex.resource.getD .vnull]) :=
  runEvaluation_nocontext o ex st hctx

/-- A concrete extraction without a context expression. -/
def exNoContext : EvaluationParameterExtraction :=
  { expression := some "e", resource := some (Value.vobj []) }

/-- C2 witness at a concrete oracle and extraction. -/
theorem C2_witness :
    (runEvaluation oracleOneItem exNoContext {}).2.calls
      = ({} : TraceState).calls ++ [mainEvalCall exNoContext]
  ∧ (∀ res, (runEvaluation oracleOneItem exNoContext {}).1 = .ok res →
      res.contexts.map ContextEntry.index = [0]
      ∧ res.contexts.map ContextEntry.contextLabel = [none]
      ∧ res.contexts.map ContextEntry.contextValue
          = [exNoContext.resource.getD .vnull]) :=
  C2_single_evaluation oracleOneItem exNoContext {} rfl

/-- C7 counterexample: a context expression the engine answers with ZERO
items yields an error-free run whose result set is empty, so the response
assembler's "zero context entries" branch — the empty `result` section — is
reached on a normal path, contrary to the spec's "not a reachable normal
path". -/
theorem C7_counterexample :
    (runEvaluation (fun _ => { emissions := [], result := .ok [] })
        exWithContext {}).1
      = .ok { contexts := [], vars := [] }
  ∧ resultSections ([] : List ContextEntry)
      = [Param.mk "result" [] none none (some [])] :=
  ⟨rfl, rfl⟩

/-- C7 (amended): a run without a context expression always yields exactly
one context entry, and the assembler emits one `result` section per entry;
the defensive empty-`result` branch fires exactly when the entry list is
empty, which a context expression evaluating to zero items reaches on a
normal (error-free) path. -/
theorem C7_empty_result (o : Oracle) (ex : EvaluationParameterExtraction)
    (st : TraceState) (hctx : truthyStr ex.contextExpression = false) :
    (∀ res, (runEvaluation o ex st).1 = .ok res → res.contexts.length = 1)
  ∧ (∀ contexts : List ContextEntry, contexts ≠ [] →
      resultSections contexts = contexts.map resultSection)
  ∧ (∀ contexts : List ContextEntry,
      (resultSections contexts).length = max contexts.length 1) := by
  refine ⟨?_, ?_, ?_⟩
  · intro res hres
    have h := (runEvaluation_nocontext o ex st hctx).2 res hres
    have := congrArg List.length h.1
    simpa using this
  · intro contexts hne
    unfold resultSections
    rw [if_pos (by simpa [List.length_pos] using hne)]
  · intro contexts
    unfold resultSections
    by_cases hc : contexts.length > 0
    · rw [if_pos hc]
      simp
      omega
    · rw [if_neg hc]
      simp at hc
      simp [hc]

/-- C7 witness at a concrete oracle and extraction. -/
theorem C7_witness :
    (∀ res, (runEvaluation oracleOneItem exNoContext {}).1 = .ok res →
      res.contexts.length = 1)
  ∧ (∀ contexts : List ContextEntry, contexts ≠ [] →
      resultSections contexts = contexts.map resultSection)
  ∧ (∀ contexts : List ContextEntry,
      (resultSections contexts).length = max contexts.length 1) :=
  C7_empty_result oracleOneItem exNoContext {} rfl

/-- C10: when the hooked `trace` evaluator returns (rather than raising an
argument error), the value collection it returns is exactly its input and
the context is passed through unchanged — so adding `trace` calls never
changes an expression's result values — while one `TraceEntry` is recorded:
under the fixed label `(unnamed)` with the input values for a zero-argument
call, and with the projection's values (not the input) when a second
argument is given. -/
theorem C10_trace_identity {γ α : Type} (input : List BoxedValue) (context : γ)
    (args : List (Option α))
    (evalArg : α → List BoxedValue → γ → Except String (List BoxedValue))
    (out : (List BoxedValue × γ) × List TraceEntry)
    (h : traceHook input context args evalArg = .ok out) :
    out.1.1 = input ∧ out.1.2 = context
  ∧ (args = [] → out.2 = [{ label := "(unnamed)", values := input }])
  ∧ (∀ a0 a1 pv, args = [some a0, some a1] →
      evalArg a1 input context = .ok pv →
      out.2.map TraceEntry.values = [pv]) := by
  cases args with
  | nil =>
    rw [show traceHook input context ([] : List (Option α)) evalArg =
        .ok ((input, context), [{ label := "(unnamed)", values := input }]) from rfl] at h
    simp only [Except.ok.injEq] at h
    subst h
    exact ⟨rfl, rfl, fun _ => rfl, fun a0 a1 pv hargs _ => by simp at hargs⟩
  | cons a0 rest =>
    cases a0 with
    | none =>
      rw [show traceHook input context (none :: rest) evalArg =
          (if ((none :: rest : List (Option α)).length == 0) = true then
            .ok ((input, context), [{ label := "(unnamed)", values := input }])
          else if (none :: rest : List (Option α)).length > 2 then
            .error "wrongArgumentCountRange"
          else .error "argumentRequired") from by
        unfold traceHook
        split
        · rfl
        · split
          · rfl
          · rfl] at h
      split_ifs at h
      all_goals simp_all
    | some n0 =>
      cases rest with
      | nil =>
        simp only [traceHook, List.length_cons, List.length_nil, List.head?] at h
        rw [if_neg (by simp)] at h
        rw [if_neg (by omega)] at h
        cases he : evalArg n0 input context with
        | error e =>
          rw [he] at h
          simp at h
        | ok nameValues =>
          rw [he] at h
          cases nameValues with
          | nil => simp at h
          | cons bn tl =>
            cases tl with
            | cons x xs => simp at h
            | nil =>
              dsimp only at h
              by_cases ht : truthyStr (extractString bn) = true
              · rw [if_neg (by simp [ht])] at h
                rw [show (if ((1 : Nat) == 2) = true
                    then ([some n0] : List (Option α)).getD 1 none else none)
                    = none from rfl] at h
                simp only [Except.ok.injEq] at h
                subst h
                exact ⟨rfl, rfl, fun hx => by simp at hx,
                  fun b0 b1 pv hargs _ => by simp at hargs⟩
              · rw [if_pos (by simp [ht])] at h
                simp at h
      | cons a1 rest2 =>
        cases rest2 with
        | nil =>
          simp only [traceHook, List.length_cons, List.length_nil, List.head?] at h
          rw [if_neg (by simp)] at h
          rw [if_neg (by omega)] at h
          cases he : evalArg n0 input context with
          | error e =>
            rw [he] at h
            simp at h
          | ok nameValues =>
            rw [he] at h
            cases nameValues with
            | nil => simp at h
            | cons bn tl =>
              cases tl with
              | cons x xs => simp at h
              | nil =>
                dsimp only at h
                by_cases ht : truthyStr (extractString bn) = true
                · rw [if_neg (by simp [ht])] at h
                  rw [show (if ((2 : Nat) == 2) = true
                      then ([some n0, a1] : List (Option α)).getD 1 none else none)
                      = a1 from rfl] at h
                  cases a1 with
                  | none =>
                    dsimp only at h
                    simp only [Except.ok.injEq] at h
                    subst h
                    exact ⟨rfl, rfl, fun hx => by simp at hx,
                      fun b0 b1 pv hargs _ => by simp at hargs⟩
                  | some n1 =>
                    dsimp only at h
                    cases hp : evalArg n1 input context with
                    | error e =>
                      rw [hp] at h
                      simp at h
                    | ok projectionValues =>
                      rw [hp] at h
                      simp only [Except.ok.injEq] at h
                      subst h
                      refine ⟨rfl, rfl, fun hx => by simp at hx, ?_⟩
                      intro b0 b1 pv hargs heval
                      have hb1 : b1 = n1 := by
                        simp only [List.cons.injEq, Option.some.injEq] at hargs
                        exact hargs.2.1.symm
                      subst hb1
                      rw [hp] at heval
                      simp only [Except.ok.injEq] at heval
                      subst heval
                      rfl
                · rw [if_pos (by simp [ht])] at h
                  simp at h
        | cons a2 rest3 =>
          simp only [traceHook, List.length_cons] at h
          rw [if_neg (by simp)] at h
          rw [if_pos (by omega)] at h
          simp at h

/-- A stub argument evaluator returning one boxed string. -/
def traceHookEvalStub : Unit → List BoxedValue → Unit → Except String (List BoxedValue) :=
  fun _ _ _ => .ok [{ value := Value.vstr "n", typeInfo := none }]

/-- What the hook returns on two arguments under `traceHookEvalStub`. -/
def traceHookOut : (List BoxedValue × Unit) × List TraceEntry :=
  (([], ()),
   [{ label := "n", values := [{ value := Value.vstr "n", typeInfo := none }] }])

/-- C10 witness: a two-argument `trace` call at a concrete stub evaluator. -/
theorem C10_witness :
    traceHookOut.1.1 = ([] : List BoxedValue)
  ∧ traceHookOut.1.2 = ()
  ∧ (([some (), some ()] : List (Option Unit)) = [] →
      traceHookOut.2 = [{ label := "(unnamed)", values := [] }])
  ∧ (∀ a0 a1 pv, ([some (), some ()] : List (Option Unit)) = [some a0, some a1] →
      traceHookEvalStub a1 [] () = .ok pv →
      traceHookOut.2.map TraceEntry.values = [pv]) :=
  C10_trace_identity [] () [some (), some ()] traceHookEvalStub traceHookOut rfl
